import Mathlib

/-!
Shallow embedding of the `nft_contract` Soroban contract
(`contracts/nft_contract/src/{lib,token,transfer,metadata,reentrancy}.rs`).

Storage (`env.storage().instance()`) is modelled as an explicit `State`
record holding one field per `DataKey` family; each contract function
becomes a pure function `State → ... → Except ContractError α × State`.

Modelled from the platform: the Soroban host runs every contract
invocation in its own storage frame and discards the frame's writes when
the invocation returns an error.  `frame` models that boundary; the six
ledger-mutating entry points (mint, batch_mint, burn, transfer,
safe_transfer_from, batch_transfer) are each split into a `*_run` body
(the computation inside the frame, a direct transcription of the Rust)
and a public wrapper applying `frame`.  The remaining entry points never
write to storage before an error return, so the frame boundary is the
identity on them and they are modelled directly.

Modelled from the platform: `try_invoke_contract::<T, E>` returns the
outer `Err` whenever the receiver's invocation fails — the receiver frame
trapped, could not be located, or its `nft_recv` returned an error value
(a contract error fails the receiver's frame) — while `Ok(Err(_))` means
the invocation succeeded but its returned value failed to convert to `T`.
`InvokeOutcome` enumerates these host-level outcomes.

`caller.require_auth()` is authentication by the surrounding runtime and
is modelled as a no-op.  `u64`/`u32` counters are modelled as `Nat`
(`saturating_sub` is `Nat` subtraction); overflow of `+ 1` on `u64` is
unreachable for any realistic supply and is not modelled.  Event emission
has no effect on storage and is omitted.  The modules `access_control.rs`,
`error.rs`, `utils.rs` and `royalty.rs` are not part of the provided
sources; their small entry points are modelled from the spec and marked as
such in their doc comments.
-/

namespace Nftopia

/-- Addresses (`soroban_sdk::Address`) are modelled as natural numbers. -/
abbrev Addr := Nat

/-- Modelled from the spec: error taxonomy of §7 (`error.rs` is not in src/). -/
inductive ContractError
  | AlreadyInitialized
  | NotFound
  | TokenNotFound
  | NotAuthorized
  | NotApproved
  | SupplyLimitExceeded
  | MetadataFrozen
  | ReentrancyDetected
  | BurnNotConfirmed
  | BatchLengthMismatch
  | TransferRejected
  | InvalidRoyalty
  | Paused
  deriving DecidableEq, Repr

instance {ε α : Type} [DecidableEq ε] [DecidableEq α] : DecidableEq (Except ε α) := fun x y =>
  match x, y with
  | .ok a, .ok b =>
    if h : a = b then .isTrue (by rw [h]) else .isFalse (by intro hh; cases hh; exact h rfl)
  | .ok _, .error _ => .isFalse (by intro hh; cases hh)
  | .error _, .ok _ => .isFalse (by intro hh; cases hh)
  | .error a, .error b =>
    if h : a = b then .isTrue (by rw [h]) else .isFalse (by intro hh; cases hh; exact h rfl)

/-- `types::TokenAttribute`. -/
structure TokenAttribute where
  trait_type : String
  value : String
  display_type : Option String
  deriving DecidableEq, Repr

/-- `types::RoyaltyInfo`: recipient plus percentage in basis points. -/
structure RoyaltyInfo where
  recipient : Addr
  percentage : Nat
  deriving DecidableEq, Repr

/-- `types::CollectionConfig`. -/
structure CollectionConfig where
  name : String
  symbol : String
  base_uri : String
  max_supply : Option Nat
  mint_price : Option Int
  is_revealed : Bool
  royalty_default : RoyaltyInfo
  metadata_is_frozen : Bool
  deriving DecidableEq, Repr

/-- Pointwise update of a map, used to model `storage().set` / `remove`
(removal stores `none`, matching `get(..).unwrap_or` default reads). -/
def upd {κ : Type} [DecidableEq κ] {β : Type} (f : κ → β) (k : κ) (v : β) : κ → β :=
  fun x => if x = k then v else f x

/-- The contract's instance storage, one field per `DataKey` family of
`storage.rs` (reconstructed from its uses in the provided sources). -/
structure State where
  initialized : Bool
  ownerRole : Option Addr
  collectionConfig : Option CollectionConfig
  defaultRoyalty : Option RoyaltyInfo
  baseUri : Option String
  metadataFrozen : Bool
  nextTokenId : Nat
  totalSupply : Nat
  maxSupply : Option Nat
  paused : Bool
  whitelistOnlyMint : Bool
  reentrancyLock : Bool
  owners : Nat → Option Addr
  approved : Nat → Option Addr
  balances : Addr → Nat
  operators : Addr → Addr → Bool
  admins : Addr → Bool
  minters : Addr → Bool
  burners : Addr → Bool
  metadataUpdaters : Addr → Bool
  whitelist : Addr → Bool
  tokenUri : Nat → Option String
  tokenCreatedAt : Nat → Option Nat
  tokenCreator : Nat → Option Addr
  tokenAttributes : Nat → Option (List TokenAttribute)
  tokenRoyaltyBps : Nat → Option Nat
  tokenRoyaltyRecipient : Nat → Option Addr
  tokenEditionNumber : Nat → Option Nat
  tokenTotalEditions : Nat → Option Nat

/-- Storage before any call: every key absent, every defaulted read 0/false. -/
def emptyState : State where
  initialized := false
  ownerRole := none
  collectionConfig := none
  defaultRoyalty := none
  baseUri := none
  metadataFrozen := false
  nextTokenId := 0
  totalSupply := 0
  maxSupply := none
  paused := false
  whitelistOnlyMint := false
  reentrancyLock := false
  owners := fun _ => none
  approved := fun _ => none
  balances := fun _ => 0
  operators := fun _ _ => false
  admins := fun _ => false
  minters := fun _ => false
  burners := fun _ => false
  metadataUpdaters := fun _ => false
  whitelist := fun _ => false
  tokenUri := fun _ => none
  tokenCreatedAt := fun _ => none
  tokenCreator := fun _ => none
  tokenAttributes := fun _ => none
  tokenRoyaltyBps := fun _ => none
  tokenRoyaltyRecipient := fun _ => none
  tokenEditionNumber := fun _ => none
  tokenTotalEditions := fun _ => none

/-- Modelled from the spec: `utils::validate_royalty_bps` (`utils.rs` is not
in src/); §4.5: royalty basis points ≤ 10000, otherwise InvalidRoyalty. -/
def validate_royalty_bps (bps : Nat) : Except ContractError Unit :=
  if bps ≤ 10000 then .ok () else .error .InvalidRoyalty

/-- Modelled from the spec: `access_control::require_not_paused`
(`access_control.rs` is not in src/); §4.1: fails Paused when paused. -/
def require_not_paused (s : State) : Except ContractError Unit :=
  if s.paused then .error .Paused else .ok ()

/-- Modelled from the spec: `access_control::require_minter`; §4.1: caller
must hold the Minter grant, denial error otherwise. -/
def require_minter (s : State) (caller : Addr) : Except ContractError Unit :=
  if s.minters caller then .ok () else .error .NotAuthorized

/-- Modelled from the spec: `access_control::require_burner`. -/
def require_burner (s : State) (caller : Addr) : Except ContractError Unit :=
  if s.burners caller then .ok () else .error .NotAuthorized

/-- Modelled from the spec: `access_control::require_admin`; the Owner
identity does not implicitly pass Admin checks (§4.1, §9). -/
def require_admin (s : State) (caller : Addr) : Except ContractError Unit :=
  if s.admins caller then .ok () else .error .NotAuthorized

/-- Modelled from the spec: `access_control::require_metadata_updater`. -/
def require_metadata_updater (s : State) (caller : Addr) : Except ContractError Unit :=
  if s.metadataUpdaters caller then .ok () else .error .NotAuthorized

/-- Modelled from the spec: `access_control::require_whitelisted`. -/
def require_whitelisted (s : State) (caller : Addr) : Except ContractError Unit :=
  if s.whitelist caller then .ok () else .error .NotAuthorized

/-- Modelled from the spec: `access_control::require_owner`, which takes no
caller and authenticates the stored Owner identity; it succeeds iff the
singular Owner role is set (authentication itself is assumed). -/
def require_owner (s : State) : Except ContractError Unit :=
  if s.ownerRole.isSome then .ok () else .error .NotAuthorized

/-- `reentrancy::acquire`. -/
def reentrancy_acquire (s : State) : Except ContractError Unit × State :=
  if s.reentrancyLock then (.error .ReentrancyDetected, s)
  else (.ok (), { s with reentrancyLock := true })

/-- `reentrancy::release`. -/
def reentrancy_release (s : State) : State :=
  { s with reentrancyLock := false }

/-- Modelled from the platform: the storage frame of one contract
invocation.  `r` is the result and storage produced by running the
invocation's body on `s`; if the body returned an error the host discards
the frame's writes, so the observable storage is the pre-call `s`. -/
def frame {α : Type} (s : State) (r : Except ContractError α × State) :
    Except ContractError α × State :=
  match r.1 with
  | .error e => (.error e, s)
  | .ok _ => r

/-- `transfer::require_can_transfer`: owner, approved spender, or operator. -/
def require_can_transfer (s : State) (frm : Addr) (token_id : Nat) :
    Except ContractError Unit :=
  match s.owners token_id with
  | none => .error .TokenNotFound
  | some owner =>
    if owner = frm then .ok ()
    else if s.approved token_id = some frm then .ok ()
    else if s.operators owner frm then .ok ()
    else .error .NotApproved

/-- `transfer::do_transfer`: pause gate, recorded owner must equal `frm`,
self-transfer is a no-op, otherwise move ownership, clear the approval and
adjust both balances (`saturating_sub` / `saturating_add`). -/
def do_transfer (s : State) (frm tgt : Addr) (token_id : Nat) :
    Except ContractError Unit × State :=
  match require_not_paused s with
  | .error e => (.error e, s)
  | .ok _ =>
    match s.owners token_id with
    | none => (.error .TokenNotFound, s)
    | some owner =>
      if owner ≠ frm then (.error .NotAuthorized, s)
      else if frm = tgt then (.ok (), s)
      else
        let s1 := { s with
          owners := upd s.owners token_id (some tgt),
          approved := upd s.approved token_id none }
        let s2 := { s1 with balances := upd s1.balances frm (s1.balances frm - 1) }
        let s3 := { s2 with balances := upd s2.balances tgt (s2.balances tgt + 1) }
        (.ok (), s3)

/-- Body of `transfer::transfer`, inside its invocation frame. -/
def transfer_run (s : State) (frm tgt : Addr) (token_id : Nat) :
    Except ContractError Unit × State :=
  let acq := reentrancy_acquire s
  match acq.1 with
  | .error e => (.error e, acq.2)
  | .ok _ =>
    let rs :=
      match require_can_transfer acq.2 frm token_id with
      | .error e => (Except.error e, acq.2)
      | .ok _ => do_transfer acq.2 frm tgt token_id
    (rs.1, reentrancy_release rs.2)

/-- `transfer::transfer`, as observed by the caller (frame boundary). -/
def transfer (s : State) (frm tgt : Addr) (token_id : Nat) :
    Except ContractError Unit × State :=
  frame s (transfer_run s frm tgt token_id)

/-- Modelled from the platform: host-level outcome of
`env.try_invoke_contract::<(), ContractError>` on the receiver's `nft_recv`
entry point.  `recvErr` — the receiver ran and returned an error value,
failing its frame: the outer `Err(Ok(_))`.  `execFailure` — the invocation
could not run at all (no contract, no `nft_recv`, trap): the outer
`Err(Err(_))`.  `okOk` — the receiver succeeded and its return value
converted: `Ok(Ok(()))`.  `okErr` — the receiver succeeded but its return
value failed to convert to the void type: `Ok(Err(_))`. -/
inductive InvokeOutcome
  | recvErr
  | execFailure
  | okOk
  | okErr
  deriving DecidableEq, Repr

/-- Body of `transfer::safe_transfer_from`, inside its invocation frame.
The receiver invocation's outcome is a parameter (`oc`); the receiver
cannot mutate owners or balances reentrantly because every entry point
that touches them is guarded by the lock, which is held across the
callback.  The source's `if let Ok(Err(_)) = invoke_result` matches only
the `okErr` outcome. -/
def safe_transfer_from_run (s : State) (contractAddr : Addr) (oc : InvokeOutcome)
    (frm tgt : Addr) (token_id : Nat) (_data : Option (List Nat)) :
    Except ContractError Unit × State :=
  let acq := reentrancy_acquire s
  match acq.1 with
  | .error e => (.error e, acq.2)
  | .ok _ =>
    let rs :=
      match require_can_transfer acq.2 frm token_id with
      | .error e => (Except.error e, acq.2)
      | .ok _ =>
        let dt := do_transfer acq.2 frm tgt token_id
        match dt.1 with
        | .error e => (Except.error e, dt.2)
        | .ok _ =>
          if tgt ≠ contractAddr then
            match oc with
            | .okErr =>
              -- `let _ = do_transfer(env, &to, &from, token_id);`
              let back := do_transfer dt.2 tgt frm token_id
              (Except.error ContractError.TransferRejected, back.2)
            | _ => (Except.ok (), dt.2)
          else (Except.ok (), dt.2)
    (rs.1, reentrancy_release rs.2)

/-- `transfer::safe_transfer_from`, as observed by the caller. -/
def safe_transfer_from (s : State) (contractAddr : Addr) (oc : InvokeOutcome)
    (frm tgt : Addr) (token_id : Nat) (data : Option (List Nat)) :
    Except ContractError Unit × State :=
  frame s (safe_transfer_from_run s contractAddr oc frm tgt token_id data)

/-- First pass of `transfer::batch_transfer`: authorization for every id. -/
def check_all (s : State) (frm : Addr) : List Nat → Except ContractError Unit
  | [] => .ok ()
  | t :: ts =>
    match require_can_transfer s frm t with
    | .error e => .error e
    | .ok _ => check_all s frm ts

/-- Second pass of `transfer::batch_transfer`: apply `do_transfer` in order,
stopping at (and keeping the storage of) the first failure. -/
def apply_all (frm tgt : Addr) : State → List Nat → Except ContractError Unit × State
  | s, [] => (.ok (), s)
  | s, t :: ts =>
    let dt := do_transfer s frm tgt t
    match dt.1 with
    | .error e => (.error e, dt.2)
    | .ok _ => apply_all frm tgt dt.2 ts

/-- Body of `transfer::batch_transfer`, inside its invocation frame. -/
def batch_transfer_run (s : State) (frm tgt : Addr) (token_ids : List Nat) :
    Except ContractError Unit × State :=
  let acq := reentrancy_acquire s
  match acq.1 with
  | .error e => (.error e, acq.2)
  | .ok _ =>
    let rs :=
      match check_all acq.2 frm token_ids with
      | .error e => (Except.error e, acq.2)
      | .ok _ => apply_all frm tgt acq.2 token_ids
    (rs.1, reentrancy_release rs.2)

/-- `transfer::batch_transfer`, as observed by the caller. -/
def batch_transfer (s : State) (frm tgt : Addr) (token_ids : List Nat) :
    Except ContractError Unit × State :=
  frame s (batch_transfer_run s frm tgt token_ids)

/-- Tail of `token::mint_internal` after the royalty block: increment the
recipient's balance, the total supply and the next id, return the new id. -/
def mint_finish (s : State) (next_id : Nat) (tgt : Addr) :
    Except ContractError Nat × State :=
  let s1 := { s with balances := upd s.balances tgt (s.balances tgt + 1) }
  let s2 := { s1 with totalSupply := s1.totalSupply + 1 }
  let s3 := { s2 with nextTokenId := next_id + 1 }
  (.ok next_id, s3)

/-- Body of `token::mint_internal` after the supply-limit check: write the
per-item fields, then validate/persist the royalty override (or read the
collection default), then `mint_finish`.  Note the per-item writes happen
before the royalty validation, exactly as in the source. -/
def mint_body (s : State) (ts : Nat) (caller tgt : Addr) (metadata_uri : String)
    (attributes : List TokenAttribute) (royalty_override : Option RoyaltyInfo) :
    Except ContractError Nat × State :=
  let next_id := s.nextTokenId
  let s1 := { s with
    owners := upd s.owners next_id (some tgt),
    tokenUri := upd s.tokenUri next_id (some metadata_uri),
    tokenCreatedAt := upd s.tokenCreatedAt next_id (some ts),
    tokenCreator := upd s.tokenCreator next_id (some caller),
    tokenAttributes := upd s.tokenAttributes next_id (some attributes) }
  match royalty_override with
  | some r =>
    match validate_royalty_bps r.percentage with
    | .error e => (.error e, s1)
    | .ok _ =>
      let s2 := { s1 with
        tokenRoyaltyBps := upd s1.tokenRoyaltyBps next_id (some r.percentage),
        tokenRoyaltyRecipient := upd s1.tokenRoyaltyRecipient next_id (some r.recipient) }
      mint_finish s2 next_id tgt
  | none =>
    match s1.defaultRoyalty with
    | none => (.error .NotFound, s1)
    | some _ => mint_finish s1 next_id tgt

/-- `token::mint_internal`: supply-limit check, then `mint_body`. -/
def mint_internal (s : State) (ts : Nat) (caller tgt : Addr) (metadata_uri : String)
    (attributes : List TokenAttribute) (royalty_override : Option RoyaltyInfo) :
    Except ContractError Nat × State :=
  match s.maxSupply with
  | some max =>
    if max ≤ s.totalSupply then (.error .SupplyLimitExceeded, s)
    else mint_body s ts caller tgt metadata_uri attributes royalty_override
  | none => mint_body s ts caller tgt metadata_uri attributes royalty_override

/-- Body of `token::mint`, inside its invocation frame: minter role, pause
gate, optional whitelist gate, then the guarded `mint_internal`.  `ts` is
`env.ledger().timestamp()`. -/
def mint_run (s : State) (ts : Nat) (caller tgt : Addr) (metadata_uri : String)
    (attributes : List TokenAttribute) (royalty_override : Option RoyaltyInfo) :
    Except ContractError Nat × State :=
  match require_minter s caller with
  | .error e => (.error e, s)
  | .ok _ =>
    match require_not_paused s with
    | .error e => (.error e, s)
    | .ok _ =>
      match (if s.whitelistOnlyMint then require_whitelisted s caller else .ok ()) with
      | .error e => (.error e, s)
      | .ok _ =>
        let acq := reentrancy_acquire s
        match acq.1 with
        | .error e => (.error e, acq.2)
        | .ok _ =>
          let rs := mint_internal acq.2 ts caller tgt metadata_uri attributes royalty_override
          (rs.1, reentrancy_release rs.2)

/-- `token::mint`, as observed by the caller (frame boundary). -/
def mint (s : State) (ts : Nat) (caller tgt : Addr) (metadata_uri : String)
    (attributes : List TokenAttribute) (royalty_override : Option RoyaltyInfo) :
    Except ContractError Nat × State :=
  frame s (mint_run s ts caller tgt metadata_uri attributes royalty_override)

/-- `token::burn_internal`: owner lookup, self-burn or Burner role, then
remove every per-item field and decrement balance and supply (saturating). -/
def burn_internal (s : State) (caller : Addr) (token_id : Nat) :
    Except ContractError Unit × State :=
  match s.owners token_id with
  | none => (.error .TokenNotFound, s)
  | some owner =>
    match (if caller = owner then Except.ok () else require_burner s caller) with
    | .error e => (.error e, s)
    | .ok _ =>
      let s1 := { s with
        owners := upd s.owners token_id none,
        approved := upd s.approved token_id none,
        tokenUri := upd s.tokenUri token_id none,
        tokenCreatedAt := upd s.tokenCreatedAt token_id none,
        tokenCreator := upd s.tokenCreator token_id none,
        tokenAttributes := upd s.tokenAttributes token_id none,
        tokenRoyaltyBps := upd s.tokenRoyaltyBps token_id none,
        tokenRoyaltyRecipient := upd s.tokenRoyaltyRecipient token_id none,
        tokenEditionNumber := upd s.tokenEditionNumber token_id none,
        tokenTotalEditions := upd s.tokenTotalEditions token_id none }
      let s2 := { s1 with balances := upd s1.balances owner (s1.balances owner - 1) }
      let s3 := { s2 with totalSupply := s2.totalSupply - 1 }
      (.ok (), s3)

/-- Body of `token::burn`, inside its invocation frame: `confirm` gate, then
the guarded `burn_internal`.  There is no pause check on this path in the
source. -/
def burn_run (s : State) (caller : Addr) (token_id : Nat) (confirm : Bool) :
    Except ContractError Unit × State :=
  if ¬ confirm then (.error .BurnNotConfirmed, s)
  else
    let acq := reentrancy_acquire s
    match acq.1 with
    | .error e => (.error e, acq.2)
    | .ok _ =>
      let rs := burn_internal acq.2 caller token_id
      (rs.1, reentrancy_release rs.2)

/-- `token::burn`, as observed by the caller (frame boundary). -/
def burn (s : State) (caller : Addr) (token_id : Nat) (confirm : Bool) :
    Except ContractError Unit × State :=
  frame s (burn_run s caller token_id confirm)

/-- Loop of `NftContract::batch_mint`: `mint_internal` per triple, collecting
ids, stopping at (and keeping the storage of) the first failure. -/
def batch_mint_loop (ts : Nat) (caller : Addr) :
    State → List (Addr × String × List TokenAttribute) →
    Except ContractError (List Nat) × State
  | s, [] => (.ok [], s)
  | s, (tgt, uri, attrs) :: rest =>
    let mi := mint_internal s ts caller tgt uri attrs none
    match mi.1 with
    | .error e => (.error e, mi.2)
    | .ok id =>
      let bl := batch_mint_loop ts caller mi.2 rest
      match bl.1 with
      | .error e => (.error e, bl.2)
      | .ok ids => (.ok (id :: ids), bl.2)

/-- Body of `NftContract::batch_mint`, inside its invocation frame: length
check first, then one upfront authorization check, then the guarded
per-item loop. -/
def batch_mint_run (s : State) (ts : Nat) (caller : Addr) (recipients : List Addr)
    (metadata_uris : List String) (attributes : List (List TokenAttribute)) :
    Except ContractError (List Nat) × State :=
  if recipients.length ≠ metadata_uris.length ∨ recipients.length ≠ attributes.length then
    (.error .BatchLengthMismatch, s)
  else
    match require_minter s caller with
    | .error e => (.error e, s)
    | .ok _ =>
      match require_not_paused s with
      | .error e => (.error e, s)
      | .ok _ =>
        match (if s.whitelistOnlyMint then require_whitelisted s caller else .ok ()) with
        | .error e => (.error e, s)
        | .ok _ =>
          let acq := reentrancy_acquire s
          match acq.1 with
          | .error e => (.error e, acq.2)
          | .ok _ =>
            let rs := batch_mint_loop ts caller acq.2
              (recipients.zip (metadata_uris.zip attributes))
            (rs.1, reentrancy_release rs.2)

/-- `NftContract::batch_mint`, as observed by the caller. -/
def batch_mint (s : State) (ts : Nat) (caller : Addr) (recipients : List Addr)
    (metadata_uris : List String) (attributes : List (List TokenAttribute)) :
    Except ContractError (List Nat) × State :=
  frame s (batch_mint_run s ts caller recipients metadata_uris attributes)

/-- `NftContract::approve`: item must exist; caller must be the owner or an
operator for the owner; overwrites the approved spender.  No pause check and
no reentrancy lock on this path in the source. -/
def approve (s : State) (caller approved_addr : Addr) (token_id : Nat) :
    Except ContractError Unit × State :=
  match s.owners token_id with
  | none => (.error .TokenNotFound, s)
  | some owner =>
    if owner ≠ caller ∧ ¬ s.operators owner caller then (.error .NotAuthorized, s)
    else (.ok (), { s with approved := upd s.approved token_id (some approved_addr) })

/-- `NftContract::set_approval_for_all`: unconditionally writes the operator
flag for (caller, operator).  No pause check and no lock in the source. -/
def set_approval_for_all (s : State) (caller operator_addr : Addr) (approved_flag : Bool) :
    Except ContractError Unit × State :=
  (.ok (), { s with operators := fun o p =>
      if o = caller ∧ p = operator_addr then approved_flag else s.operators o p })

/-- `metadata::set_token_uri`: freeze gate first, then existence, then
owner-or-updater authorization, then write. -/
def set_token_uri (s : State) (token_id : Nat) (uri : String) (caller : Addr) :
    Except ContractError Unit × State :=
  if s.metadataFrozen then (.error .MetadataFrozen, s)
  else
    match s.owners token_id with
    | none => (.error .TokenNotFound, s)
    | some owner =>
      match (if caller ≠ owner then require_metadata_updater s caller else .ok ()) with
      | .error e => (.error e, s)
      | .ok _ => (.ok (), { s with tokenUri := upd s.tokenUri token_id (some uri) })

/-- `metadata::set_base_uri`: freeze gate first, then Admin, then write. -/
def set_base_uri (s : State) (caller : Addr) (base_uri : String) :
    Except ContractError Unit × State :=
  if s.metadataFrozen then (.error .MetadataFrozen, s)
  else
    match require_admin s caller with
    | .error e => (.error e, s)
    | .ok _ => (.ok (), { s with baseUri := some base_uri })

/-- `metadata::freeze_metadata`: Owner only; sets the flag, never clears. -/
def freeze_metadata (s : State) (_caller : Addr) : Except ContractError Unit × State :=
  match require_owner s with
  | .error e => (.error e, s)
  | .ok _ => (.ok (), { s with metadataFrozen := true })

/-- `metadata::set_edition_info`: freeze gate first, then existence, then
owner-or-updater authorization; `none` clears the stored field. -/
def set_edition_info (s : State) (token_id : Nat) (edition_number total_editions : Option Nat)
    (caller : Addr) : Except ContractError Unit × State :=
  if s.metadataFrozen then (.error .MetadataFrozen, s)
  else
    match s.owners token_id with
    | none => (.error .TokenNotFound, s)
    | some owner =>
      match (if caller ≠ owner then require_metadata_updater s caller else .ok ()) with
      | .error e => (.error e, s)
      | .ok _ =>
        let s1 := { s with tokenEditionNumber := upd s.tokenEditionNumber token_id edition_number }
        let s2 := { s1 with tokenTotalEditions := upd s1.tokenTotalEditions token_id total_editions }
        (.ok (), s2)

/-- `NftContract::initialize`. -/
def initialize_contract (s : State) (owner : Addr) (config : CollectionConfig) :
    Except ContractError Unit × State :=
  if s.initialized then (.error .AlreadyInitialized, s)
  else
    match validate_royalty_bps config.royalty_default.percentage with
    | .error e => (.error e, s)
    | .ok _ =>
      let s1 := { s with
        initialized := true,
        ownerRole := some owner,
        collectionConfig := some config,
        defaultRoyalty := some config.royalty_default,
        baseUri := some config.base_uri,
        metadataFrozen := config.metadata_is_frozen,
        nextTokenId := 0,
        totalSupply := 0,
        paused := false }
      match config.max_supply with
      | some max => (.ok (), { s1 with maxSupply := some max })
      | none => (.ok (), s1)

/-- `NftContract::set_pause`: Admin only. -/
def set_pause (s : State) (caller : Addr) (paused_flag : Bool) :
    Except ContractError Unit × State :=
  match require_admin s caller with
  | .error e => (.error e, s)
  | .ok _ => (.ok (), { s with paused := paused_flag })

/-- `NftContract::set_admin`: Owner only. -/
def set_admin (s : State) (admin : Addr) (granted : Bool) :
    Except ContractError Unit × State :=
  match require_owner s with
  | .error e => (.error e, s)
  | .ok _ => (.ok (), { s with admins := upd s.admins admin granted })

/-- `NftContract::set_minter`: Admin only. -/
def set_minter (s : State) (caller minter : Addr) (granted : Bool) :
    Except ContractError Unit × State :=
  match require_admin s caller with
  | .error e => (.error e, s)
  | .ok _ => (.ok (), { s with minters := upd s.minters minter granted })

/-- `NftContract::set_burner`: Admin only. -/
def set_burner (s : State) (caller burner : Addr) (granted : Bool) :
    Except ContractError Unit × State :=
  match require_admin s caller with
  | .error e => (.error e, s)
  | .ok _ => (.ok (), { s with burners := upd s.burners burner granted })

/-- `NftContract::set_metadata_updater`: Admin only. -/
def set_metadata_updater (s : State) (caller updater : Addr) (granted : Bool) :
    Except ContractError Unit × State :=
  match require_admin s caller with
  | .error e => (.error e, s)
  | .ok _ => (.ok (), { s with metadataUpdaters := upd s.metadataUpdaters updater granted })

/-- `NftContract::set_whitelist`: Admin only. -/
def set_whitelist (s : State) (caller addr : Addr) (allowed : Bool) :
    Except ContractError Unit × State :=
  match require_admin s caller with
  | .error e => (.error e, s)
  | .ok _ => (.ok (), { s with whitelist := upd s.whitelist addr allowed })

/-- `NftContract::set_whitelist_only_mint`: Admin only. -/
def set_whitelist_only_mint (s : State) (caller : Addr) (enabled : Bool) :
    Except ContractError Unit × State :=
  match require_admin s caller with
  | .error e => (.error e, s)
  | .ok _ => (.ok (), { s with whitelistOnlyMint := enabled })

/-- Modelled from the spec: `royalty::set_default_royalty` (`royalty.rs` is
not in src/); §4.5: Admin only, validates bps ≤ 10000, stores the default. -/
def set_default_royalty (s : State) (caller recipient : Addr) (percentage : Nat) :
    Except ContractError Unit × State :=
  match require_admin s caller with
  | .error e => (.error e, s)
  | .ok _ =>
    match validate_royalty_bps percentage with
    | .error e => (.error e, s)
    | .ok _ => (.ok (), { s with defaultRoyalty := some ⟨recipient, percentage⟩ })

/-- Modelled from the spec: `royalty::set_royalty_info`; §4.5: Admin only,
validates bps ≤ 10000, stores the per-item override. -/
def set_royalty_info (s : State) (caller : Addr) (token_id : Nat) (recipient : Addr)
    (percentage : Nat) : Except ContractError Unit × State :=
  match require_admin s caller with
  | .error e => (.error e, s)
  | .ok _ =>
    match validate_royalty_bps percentage with
    | .error e => (.error e, s)
    | .ok _ =>
      let s1 := { s with tokenRoyaltyBps := upd s.tokenRoyaltyBps token_id (some percentage) }
      (.ok (), { s1 with tokenRoyaltyRecipient := upd s1.tokenRoyaltyRecipient token_id (some recipient) })

/-- One public state-mutating operation of the contract surface (§6). -/
inductive Op
  | opInit (owner : Addr) (cfg : CollectionConfig)
  | opMint (ts : Nat) (caller tgt : Addr) (uri : String)
      (attrs : List TokenAttribute) (roy : Option RoyaltyInfo)
  | opBatchMint (ts : Nat) (caller : Addr) (rs : List Addr) (us : List String)
      (ats : List (List TokenAttribute))
  | opBurn (caller : Addr) (tid : Nat) (confirm : Bool)
  | opTransfer (frm tgt : Addr) (tid : Nat)
  | opSafeTransfer (contractAddr : Addr) (oc : InvokeOutcome) (frm tgt : Addr)
      (tid : Nat) (data : Option (List Nat))
  | opBatchTransfer (frm tgt : Addr) (tids : List Nat)
  | opApprove (caller approved_addr : Addr) (tid : Nat)
  | opSetApprovalForAll (caller operator_addr : Addr) (b : Bool)
  | opSetTokenUri (caller : Addr) (tid : Nat) (uri : String)
  | opSetBaseUri (caller : Addr) (uri : String)
  | opFreezeMetadata (caller : Addr)
  | opSetEditionInfo (caller : Addr) (tid : Nat) (en te : Option Nat)
  | opSetPause (caller : Addr) (b : Bool)
  | opSetAdmin (a : Addr) (b : Bool)
  | opSetMinter (caller m : Addr) (b : Bool)
  | opSetBurner (caller m : Addr) (b : Bool)
  | opSetMetadataUpdater (caller m : Addr) (b : Bool)
  | opSetWhitelist (caller m : Addr) (b : Bool)
  | opSetWhitelistOnlyMint (caller : Addr) (b : Bool)
  | opSetDefaultRoyalty (caller r : Addr) (bps : Nat)
  | opSetRoyaltyInfo (caller : Addr) (tid : Nat) (r : Addr) (bps : Nat)

/-- The storage left behind by one public mutating operation. -/
def applyOp (op : Op) (s : State) : State :=
  match op with
  | .opInit owner cfg => (initialize_contract s owner cfg).2
  | .opMint ts caller tgt uri attrs roy => (mint s ts caller tgt uri attrs roy).2
  | .opBatchMint ts caller rs us ats => (batch_mint s ts caller rs us ats).2
  | .opBurn caller tid confirm => (burn s caller tid confirm).2
  | .opTransfer frm tgt tid => (transfer s frm tgt tid).2
  | .opSafeTransfer ca oc frm tgt tid data => (safe_transfer_from s ca oc frm tgt tid data).2
  | .opBatchTransfer frm tgt tids => (batch_transfer s frm tgt tids).2
  | .opApprove caller ap tid => (approve s caller ap tid).2
  | .opSetApprovalForAll caller op_ b => (set_approval_for_all s caller op_ b).2
  | .opSetTokenUri caller tid uri => (set_token_uri s tid uri caller).2
  | .opSetBaseUri caller uri => (set_base_uri s caller uri).2
  | .opFreezeMetadata caller => (freeze_metadata s caller).2
  | .opSetEditionInfo caller tid en te => (set_edition_info s tid en te caller).2
  | .opSetPause caller b => (set_pause s caller b).2
  | .opSetAdmin a b => (set_admin s a b).2
  | .opSetMinter caller m b => (set_minter s caller m b).2
  | .opSetBurner caller m b => (set_burner s caller m b).2
  | .opSetMetadataUpdater caller m b => (set_metadata_updater s caller m b).2
  | .opSetWhitelist caller m b => (set_whitelist s caller m b).2
  | .opSetWhitelistOnlyMint caller b => (set_whitelist_only_mint s caller b).2
  | .opSetDefaultRoyalty caller r bps => (set_default_royalty s caller r bps).2
  | .opSetRoyaltyInfo caller tid r bps => (set_royalty_info s caller tid r bps).2

/-- Sum of the balances of the holders in `hs` ("sum over all holders" once
`hs` contains every address with a nonzero balance). -/
def sumBal (s : State) (hs : Finset Addr) : Nat :=
  hs.sum s.balances

/-- Number of items recorded as owned by `a` (item ids live below
`nextTokenId`, which is monotone and never reused). -/
def ownedCount (s : State) (a : Addr) : Nat :=
  ((Finset.range s.nextTokenId).filter (fun t => s.owners t = some a)).card

/-- Number of existing (non-burned) items. -/
def existCount (s : State) : Nat :=
  ((Finset.range s.nextTokenId).filter (fun t => (s.owners t).isSome)).card

/-- Ledger well-formedness: every balance counts exactly the items its
holder owns, the total supply counts the existing items, ids at or above
`nextTokenId` are unused, and an uninitialized collection has no items and
no granted roles (roles require the Owner identity set by `initialize`). -/
structure WF (s : State) : Prop where
  bal : ∀ a, s.balances a = ownedCount s a
  supply : s.totalSupply = existCount s
  fresh : ∀ t, s.nextTokenId ≤ t → s.owners t = none
  uninitTokens : s.initialized = false → s.nextTokenId = 0
  uninitMinters : s.initialized = false → ∀ a, s.minters a = false
  uninitAdmins : s.initialized = false → ∀ a, s.admins a = false
  uninitOwner : s.initialized = false → s.ownerRole = none

/-- States reachable from the empty storage through the public
state-mutating operation surface. -/
inductive Reachable : State → Prop
  | base : Reachable emptyState
  | step (s : State) (op : Op) : Reachable s → Reachable (applyOp op s)

/-- "The sum over all holders of their balance equals total_supply": over
every finite set of addresses containing all holders of nonzero balance. -/
def sumEqSupply (s : State) : Prop :=
  ∀ hs : Finset Addr, (∀ a, s.balances a ≠ 0 → a ∈ hs) → sumBal s hs = s.totalSupply

/-! Concrete states used by the witnesses and counterexamples below.
Addresses: 0 = collection owner, 1/2/3 = users, 4 = minter, 9 = spender. -/

/-- An initialized collection where user 1 owns token 0 with user 9 recorded
as its approved spender. -/
def stOwned : State := { emptyState with
  initialized := true
  ownerRole := some 0
  defaultRoyalty := some ⟨0, 500⟩
  owners := fun t => if t = 0 then some 1 else none
  approved := fun t => if t = 0 then some 9 else none
  balances := fun a => if a = 1 then 1 else 0
  totalSupply := 1
  nextTokenId := 1 }

/-- User 1 owns token 0 and is the approved spender of token 1, which is
owned by user 3. -/
def stTwoTokens : State := { emptyState with
  initialized := true
  ownerRole := some 0
  defaultRoyalty := some ⟨0, 500⟩
  owners := fun t => if t = 0 then some 1 else if t = 1 then some 3 else none
  approved := fun t => if t = 1 then some 1 else none
  balances := fun a => if a = 1 then 1 else if a = 3 then 1 else 0
  totalSupply := 2
  nextTokenId := 2 }

/-- `stOwned` with the pause flag set and address 4 granted Minter. -/
def stPaused : State := { stOwned with
  paused := true
  minters := fun a => a = 4 }

/-- `stOwned` with the reentrancy lock held (as during a receiver callback)
and address 4 granted Minter. -/
def stLocked : State := { stOwned with
  reentrancyLock := true
  minters := fun a => a = 4 }

/-- Collection configuration with no supply cap and a 5% default royalty. -/
def cfgNoMax : CollectionConfig :=
  { name := "c", symbol := "c", base_uri := "u", max_supply := none,
    mint_price := none, is_revealed := true,
    royalty_default := ⟨0, 500⟩, metadata_is_frozen := false }

/-- Collection configuration with `max_supply = 1`. -/
def cfgMax1 : CollectionConfig := { cfgNoMax with max_supply := some 1 }

/-- Initialize with `cfgMax1` (owner 0), grant Admin to 0, Minter to 1. -/
def stCapReady : State :=
  (set_minter (set_admin (initialize_contract emptyState 0 cfgMax1).2 0 true).2 0 1 true).2

/-- `stCapReady` after its first (successful) mint to user 2. -/
def stCapFull : State := (mint stCapReady 0 1 2 "t" [] none).2

/-- `stOwned` with the metadata-frozen flag set. -/
def stFrozen : State := { stOwned with metadataFrozen := true }

/-- Claim C3 counterexample: with the pause flag set, `burn` (a mutating
operation that is not owner-level administration) succeeds and deletes the
item instead of failing with Paused — `token::burn` never checks the pause
flag. -/
theorem C3_burn_ignores_pause :
    stPaused.paused = true ∧
    (burn stPaused 1 0 true).1 = .ok () ∧
    (burn stPaused 1 0 true).2.owners 0 = none ∧
    (burn stPaused 1 0 true).2.totalSupply = 0 := by decide

/-- Claim C4 counterexample: with the reentrancy lock held (as during a
receiver callback), `approve` — a public operation that mutates the approval
map — succeeds and overwrites the approved spender instead of failing with
ReentrancyDetected: `NftContract::approve` never acquires the lock. -/
theorem C4_approve_unguarded :
    stLocked.reentrancyLock = true ∧
    stLocked.approved 0 = some 9 ∧
    (approve stLocked 1 5 0).1 = .ok () ∧
    (approve stLocked 1 5 0).2.approved 0 = some 5 := by decide

/-- Claim C6 counterexample: a successful self-transfer (`from = to`) leaves
the item's approved spender in place — `do_transfer` returns before the
approval-clearing write when `from == to`. -/
theorem C6_self_transfer_keeps_approval :
    (transfer stOwned 1 1 0).1 = .ok () ∧
    stOwned.approved 0 = some 9 ∧
    (transfer stOwned 1 1 0).2.approved 0 = some 9 := by decide

theorem upd_same {κ : Type} [DecidableEq κ] {β : Type} (f : κ → β) (k : κ) (v : β) :
    upd f k v k = v := by
  simp [upd]

theorem upd_ne {κ : Type} [DecidableEq κ] {β : Type} (f : κ → β) {x k : κ} (v : β)
    (h : x ≠ k) : upd f k v x = f x := by
  simp [upd, h]

theorem release_of_unlocked (s : State) (h : s.reentrancyLock = false) :
    reentrancy_release s = s := by
  rw [reentrancy_release, ← h]

/-- Claim C9: `approve` fails TokenNotFound when the item does not exist;
when it exists it succeeds iff the caller is the owner or an operator for
the owner (NotAuthorized otherwise), and on success it overwrites the
approved spender with the new one. -/
theorem C9_approve_semantics (s : State) (caller ap : Addr) (tid : Nat) :
    (s.owners tid = none → approve s caller ap tid = (.error .TokenNotFound, s)) ∧
    (∀ o, s.owners tid = some o → caller ≠ o → s.operators o caller = false →
      approve s caller ap tid = (.error .NotAuthorized, s)) ∧
    (∀ o, s.owners tid = some o → (caller = o ∨ s.operators o caller = true) →
      approve s caller ap tid =
        (.ok (), { s with approved := upd s.approved tid (some ap) })) ∧
    (∀ o, s.owners tid = some o →
      ((approve s caller ap tid).1 = .ok () ↔ caller = o ∨ s.operators o caller = true)) := by
  refine ⟨?_, ?_, ?_, ?_⟩
  · intro h; simp [approve, h]
  · intro o h hne hop
    have : o ≠ caller := Ne.symm hne
    simp [approve, h, this, hop]
  · intro o h hok
    rcases hok with hceq | hop
    · subst hceq; simp [approve, h]
    · by_cases hceq : o = caller
      · subst hceq; simp [approve, h]
      · simp [approve, h, hceq, hop]
  · intro o h
    constructor
    · intro hr
      by_cases hceq : caller = o
      · exact Or.inl hceq
      · right
        by_cases hop : s.operators o caller
        · exact hop
        · exfalso
          have : o ≠ caller := Ne.symm hceq
          simp [approve, h, this, hop] at hr
    · intro hok
      rcases hok with hceq | hop
      · subst hceq; simp [approve, h]
      · by_cases hceq : o = caller
        · subst hceq; simp [approve, h]
        · simp [approve, h, hceq, hop]

theorem do_transfer_frozen (s : State) (frm tgt : Addr) (tid : Nat) :
    ((do_transfer s frm tgt tid).2).metadataFrozen = s.metadataFrozen := by
  unfold do_transfer
  repeat' split
  all_goals rfl

theorem apply_all_frozen (frm tgt : Addr) : ∀ (l : List Nat) (s : State),
    ((apply_all frm tgt s l).2).metadataFrozen = s.metadataFrozen := by
  intro l
  induction l with
  | nil => intro s; rfl
  | cons x xs ih =>
    intro s
    unfold apply_all
    dsimp only
    split
    · exact do_transfer_frozen s frm tgt x
    · rw [ih]
      exact do_transfer_frozen s frm tgt x

theorem mint_internal_frozen (s : State) (ts : Nat) (caller tgt : Addr) (uri : String)
    (attrs : List TokenAttribute) (roy : Option RoyaltyInfo) :
    ((mint_internal s ts caller tgt uri attrs roy).2).metadataFrozen = s.metadataFrozen := by
  unfold mint_internal mint_body mint_finish
  dsimp only
  repeat' split
  all_goals rfl

theorem batch_mint_loop_frozen (ts : Nat) (caller : Addr) :
    ∀ (l : List (Addr × String × List TokenAttribute)) (s : State),
    ((batch_mint_loop ts caller s l).2).metadataFrozen = s.metadataFrozen := by
  intro l
  induction l with
  | nil => intro s; rfl
  | cons x xs ih =>
    intro s
    rcases x with ⟨tgt, uri, attrs⟩
    unfold batch_mint_loop
    dsimp only
    split
    · exact mint_internal_frozen s ts caller tgt uri attrs none
    · split
      · rw [ih]
        exact mint_internal_frozen s ts caller tgt uri attrs none
      · rw [ih]
        exact mint_internal_frozen s ts caller tgt uri attrs none

theorem burn_internal_frozen (s : State) (caller : Addr) (tid : Nat) :
    ((burn_internal s caller tid).2).metadataFrozen = s.metadataFrozen := by
  unfold burn_internal
  repeat' split
  all_goals rfl

theorem frame_fst {α : Type} (s : State) (r : Except ContractError α × State) :
    (frame s r).1 = r.1 := by
  unfold frame
  cases h : r.1 with
  | error e => rfl
  | ok v => exact h

theorem frame_of_error {α : Type} (s : State) (r : Except ContractError α × State)
    (e : ContractError) (h : r.1 = .error e) : frame s r = (.error e, s) := by
  unfold frame
  rw [h]

theorem frame_of_ok {α : Type} (s : State) (r : Except ContractError α × State)
    (v : α) (h : r.1 = .ok v) : frame s r = r := by
  unfold frame
  rw [h]

theorem frame_err_snd {α : Type} (s : State) (r : Except ContractError α × State)
    (e : ContractError) (h : (frame s r).1 = .error e) : (frame s r).2 = s := by
  have h1 : r.1 = .error e := by rw [← frame_fst s r]; exact h
  rw [frame_of_error s r e h1]

theorem frame_cases {α : Type} (s : State) (r : Except ContractError α × State) :
    (frame s r).2 = s ∨ (frame s r).2 = r.2 := by
  unfold frame
  cases h : r.1 with
  | error e => exact Or.inl rfl
  | ok v => exact Or.inr rfl

theorem acquire_frozen (s : State) :
    ((reentrancy_acquire s).2).metadataFrozen = s.metadataFrozen := by
  unfold reentrancy_acquire
  split <;> rfl

theorem release_frozen (s : State) :
    (reentrancy_release s).metadataFrozen = s.metadataFrozen := rfl

theorem transfer_run_frozen (s : State) (frm tgt : Addr) (tid : Nat) :
    ((transfer_run s frm tgt tid).2).metadataFrozen = s.metadataFrozen := by
  unfold transfer_run
  dsimp only
  split
  · exact acquire_frozen s
  · split
    · rw [release_frozen]
      exact acquire_frozen s
    · rw [release_frozen, do_transfer_frozen]
      exact acquire_frozen s

theorem transfer_frozen (s : State) (frm tgt : Addr) (tid : Nat) :
    ((transfer s frm tgt tid).2).metadataFrozen = s.metadataFrozen := by
  unfold transfer
  rcases frame_cases s (transfer_run s frm tgt tid) with h | h <;> rw [h]
  exact transfer_run_frozen s frm tgt tid

theorem safe_transfer_run_frozen (s : State) (ca : Addr) (oc : InvokeOutcome) (frm tgt : Addr)
    (tid : Nat) (d : Option (List Nat)) :
    ((safe_transfer_from_run s ca oc frm tgt tid d).2).metadataFrozen = s.metadataFrozen := by
  unfold safe_transfer_from_run
  dsimp only
  split
  · exact acquire_frozen s
  · split
    · rw [release_frozen]
      exact acquire_frozen s
    · split
      · rw [release_frozen, do_transfer_frozen]
        exact acquire_frozen s
      · split
        · split
          all_goals rw [release_frozen]
          all_goals repeat rw [do_transfer_frozen]
          all_goals exact acquire_frozen s
        · rw [release_frozen, do_transfer_frozen]
          exact acquire_frozen s

theorem safe_transfer_frozen (s : State) (ca : Addr) (oc : InvokeOutcome) (frm tgt : Addr)
    (tid : Nat) (d : Option (List Nat)) :
    ((safe_transfer_from s ca oc frm tgt tid d).2).metadataFrozen = s.metadataFrozen := by
  unfold safe_transfer_from
  rcases frame_cases s (safe_transfer_from_run s ca oc frm tgt tid d) with h | h <;> rw [h]
  exact safe_transfer_run_frozen s ca oc frm tgt tid d

theorem batch_transfer_run_frozen (s : State) (frm tgt : Addr) (tids : List Nat) :
    ((batch_transfer_run s frm tgt tids).2).metadataFrozen = s.metadataFrozen := by
  unfold batch_transfer_run
  dsimp only
  split
  · exact acquire_frozen s
  · split
    · rw [release_frozen]
      exact acquire_frozen s
    · rw [release_frozen, apply_all_frozen]
      exact acquire_frozen s

theorem batch_transfer_frozen (s : State) (frm tgt : Addr) (tids : List Nat) :
    ((batch_transfer s frm tgt tids).2).metadataFrozen = s.metadataFrozen := by
  unfold batch_transfer
  rcases frame_cases s (batch_transfer_run s frm tgt tids) with h | h <;> rw [h]
  exact batch_transfer_run_frozen s frm tgt tids

theorem mint_run_frozen (s : State) (ts : Nat) (caller tgt : Addr) (uri : String)
    (attrs : List TokenAttribute) (roy : Option RoyaltyInfo) :
    ((mint_run s ts caller tgt uri attrs roy).2).metadataFrozen = s.metadataFrozen := by
  unfold mint_run
  dsimp only
  split
  · rfl
  · split
    · rfl
    · split
      · rfl
      · split
        · exact acquire_frozen s
        · rw [release_frozen, mint_internal_frozen]
          exact acquire_frozen s

theorem mint_frozen (s : State) (ts : Nat) (caller tgt : Addr) (uri : String)
    (attrs : List TokenAttribute) (roy : Option RoyaltyInfo) :
    ((mint s ts caller tgt uri attrs roy).2).metadataFrozen = s.metadataFrozen := by
  unfold mint
  rcases frame_cases s (mint_run s ts caller tgt uri attrs roy) with h | h <;> rw [h]
  exact mint_run_frozen s ts caller tgt uri attrs roy

theorem batch_mint_run_frozen (s : State) (ts : Nat) (caller : Addr) (rs : List Addr)
    (us : List String) (ats : List (List TokenAttribute)) :
    ((batch_mint_run s ts caller rs us ats).2).metadataFrozen = s.metadataFrozen := by
  unfold batch_mint_run
  dsimp only
  split
  · rfl
  · split
    · rfl
    · split
      · rfl
      · split
        · rfl
        · split
          · exact acquire_frozen s
          · rw [release_frozen, batch_mint_loop_frozen]
            exact acquire_frozen s

theorem batch_mint_frozen (s : State) (ts : Nat) (caller : Addr) (rs : List Addr)
    (us : List String) (ats : List (List TokenAttribute)) :
    ((batch_mint s ts caller rs us ats).2).metadataFrozen = s.metadataFrozen := by
  unfold batch_mint
  rcases frame_cases s (batch_mint_run s ts caller rs us ats) with h | h <;> rw [h]
  exact batch_mint_run_frozen s ts caller rs us ats

theorem burn_run_frozen (s : State) (caller : Addr) (tid : Nat) (confirm : Bool) :
    ((burn_run s caller tid confirm).2).metadataFrozen = s.metadataFrozen := by
  unfold burn_run
  dsimp only
  split
  · rfl
  · split
    · exact acquire_frozen s
    · rw [release_frozen, burn_internal_frozen]
      exact acquire_frozen s

theorem burn_frozen (s : State) (caller : Addr) (tid : Nat) (confirm : Bool) :
    ((burn s caller tid confirm).2).metadataFrozen = s.metadataFrozen := by
  unfold burn
  rcases frame_cases s (burn_run s caller tid confirm) with h | h <;> rw [h]
  exact burn_run_frozen s caller tid confirm

theorem approve_frozen (s : State) (caller ap : Addr) (tid : Nat) :
    ((approve s caller ap tid).2).metadataFrozen = s.metadataFrozen := by
  unfold approve
  repeat' split
  all_goals rfl

theorem set_approval_for_all_frozen (s : State) (caller op_ : Addr) (b : Bool) :
    ((set_approval_for_all s caller op_ b).2).metadataFrozen = s.metadataFrozen := rfl

theorem set_token_uri_frozen (s : State) (tid : Nat) (uri : String) (caller : Addr) :
    ((set_token_uri s tid uri caller).2).metadataFrozen = s.metadataFrozen := by
  unfold set_token_uri
  repeat' split
  all_goals rfl

theorem set_base_uri_frozen (s : State) (caller : Addr) (uri : String) :
    ((set_base_uri s caller uri).2).metadataFrozen = s.metadataFrozen := by
  unfold set_base_uri
  repeat' split
  all_goals rfl

theorem set_edition_info_frozen (s : State) (tid : Nat) (en te : Option Nat) (caller : Addr) :
    ((set_edition_info s tid en te caller).2).metadataFrozen = s.metadataFrozen := by
  unfold set_edition_info
  repeat' split
  all_goals rfl

theorem set_pause_frozen (s : State) (caller : Addr) (b : Bool) :
    ((set_pause s caller b).2).metadataFrozen = s.metadataFrozen := by
  unfold set_pause
  repeat' split
  all_goals rfl

theorem set_admin_frozen (s : State) (a : Addr) (b : Bool) :
    ((set_admin s a b).2).metadataFrozen = s.metadataFrozen := by
  unfold set_admin
  repeat' split
  all_goals rfl

theorem set_minter_frozen (s : State) (caller m : Addr) (b : Bool) :
    ((set_minter s caller m b).2).metadataFrozen = s.metadataFrozen := by
  unfold set_minter
  repeat' split
  all_goals rfl

theorem set_burner_frozen (s : State) (caller m : Addr) (b : Bool) :
    ((set_burner s caller m b).2).metadataFrozen = s.metadataFrozen := by
  unfold set_burner
  repeat' split
  all_goals rfl

theorem set_metadata_updater_frozen (s : State) (caller m : Addr) (b : Bool) :
    ((set_metadata_updater s caller m b).2).metadataFrozen = s.metadataFrozen := by
  unfold set_metadata_updater
  repeat' split
  all_goals rfl

theorem set_whitelist_frozen (s : State) (caller m : Addr) (b : Bool) :
    ((set_whitelist s caller m b).2).metadataFrozen = s.metadataFrozen := by
  unfold set_whitelist
  repeat' split
  all_goals rfl

theorem set_whitelist_only_mint_frozen (s : State) (caller : Addr) (b : Bool) :
    ((set_whitelist_only_mint s caller b).2).metadataFrozen = s.metadataFrozen := by
  unfold set_whitelist_only_mint
  repeat' split
  all_goals rfl

theorem set_default_royalty_frozen (s : State) (caller r : Addr) (bps : Nat) :
    ((set_default_royalty s caller r bps).2).metadataFrozen = s.metadataFrozen := by
  unfold set_default_royalty
  repeat' split
  all_goals rfl

theorem set_royalty_info_frozen (s : State) (caller : Addr) (tid : Nat) (r : Addr) (bps : Nat) :
    ((set_royalty_info s caller tid r bps).2).metadataFrozen = s.metadataFrozen := by
  unfold set_royalty_info
  repeat' split
  all_goals rfl

/-- Claim C7: with the metadata-frozen flag set, `set_token_uri`,
`set_base_uri` and `set_edition_info` fail with MetadataFrozen for every
caller and leave storage untouched (the freeze gate runs before any
authorization or existence check); a successful `freeze_metadata` sets the
flag; and no public mutating operation ever clears the flag on an
initialized collection. -/
theorem C7_metadata_freeze (s : State) (hf : s.metadataFrozen = true) :
    (∀ caller tid uri, set_token_uri s tid uri caller = (.error .MetadataFrozen, s)) ∧
    (∀ caller uri, set_base_uri s caller uri = (.error .MetadataFrozen, s)) ∧
    (∀ caller tid en te, set_edition_info s tid en te caller = (.error .MetadataFrozen, s)) ∧
    (∀ (t : State) (caller : Addr), (freeze_metadata t caller).1 = .ok () →
      ((freeze_metadata t caller).2).metadataFrozen = true) ∧
    (s.initialized = true → ∀ op : Op, (applyOp op s).metadataFrozen = true) := by
  refine ⟨?_, ?_, ?_, ?_, ?_⟩
  · intro caller tid uri; simp [set_token_uri, hf]
  · intro caller uri; simp [set_base_uri, hf]
  · intro caller tid en te; simp [set_edition_info, hf]
  · intro t caller hok
    unfold freeze_metadata at hok ⊢
    cases hro : require_owner t with
    | error e => rw [hro] at hok; simp at hok
    | ok u => rfl
  · intro hinit op
    cases op with
    | opInit owner cfg => simp [applyOp, initialize_contract, hinit, hf]
    | opMint ts caller tgt uri attrs roy => rw [applyOp, mint_frozen]; exact hf
    | opBatchMint ts caller rs us ats => rw [applyOp, batch_mint_frozen]; exact hf
    | opBurn caller tid confirm => rw [applyOp, burn_frozen]; exact hf
    | opTransfer frm tgt tid => rw [applyOp, transfer_frozen]; exact hf
    | opSafeTransfer ca oc frm tgt tid data => rw [applyOp, safe_transfer_frozen]; exact hf
    | opBatchTransfer frm tgt tids => rw [applyOp, batch_transfer_frozen]; exact hf
    | opApprove caller ap tid => rw [applyOp, approve_frozen]; exact hf
    | opSetApprovalForAll caller op_ b => rw [applyOp, set_approval_for_all_frozen]; exact hf
    | opSetTokenUri caller tid uri => rw [applyOp, set_token_uri_frozen]; exact hf
    | opSetBaseUri caller uri => rw [applyOp, set_base_uri_frozen]; exact hf
    | opFreezeMetadata caller =>
      rw [applyOp]
      unfold freeze_metadata
      cases hro : require_owner s with
      | error e => exact hf
      | ok u => rfl
    | opSetEditionInfo caller tid en te => rw [applyOp, set_edition_info_frozen]; exact hf
    | opSetPause caller b => rw [applyOp, set_pause_frozen]; exact hf
    | opSetAdmin a b => rw [applyOp, set_admin_frozen]; exact hf
    | opSetMinter caller m b => rw [applyOp, set_minter_frozen]; exact hf
    | opSetBurner caller m b => rw [applyOp, set_burner_frozen]; exact hf
    | opSetMetadataUpdater caller m b => rw [applyOp, set_metadata_updater_frozen]; exact hf
    | opSetWhitelist caller m b => rw [applyOp, set_whitelist_frozen]; exact hf
    | opSetWhitelistOnlyMint caller b => rw [applyOp, set_whitelist_only_mint_frozen]; exact hf
    | opSetDefaultRoyalty caller r bps => rw [applyOp, set_default_royalty_frozen]; exact hf
    | opSetRoyaltyInfo caller tid r bps => rw [applyOp, set_royalty_info_frozen]; exact hf

/-- Claim C7 witness: on the concrete frozen state `stFrozen`, `set_base_uri`
by the collection owner fails with MetadataFrozen and changes nothing. -/
theorem C7_metadata_freeze_witness :
    set_base_uri stFrozen 0 "x" = (.error .MetadataFrozen, stFrozen) :=
  (C7_metadata_freeze stFrozen rfl).2.1 0 "x"

theorem release_lockset (s : State) (h : s.reentrancyLock = false) :
    reentrancy_release { s with reentrancyLock := true } = s := by
  rw [reentrancy_release, ← h]

/-- Claim C8: with a configured max supply `m` and an authorized,
non-reentrant mint, the mint fails with SupplyLimitExceeded exactly when
the current total supply has reached `m`, and in that case the whole
storage is returned unchanged; on the concrete scenario with
`max_supply = 1`, the first mint returns id 0 and the second fails with
SupplyLimitExceeded. -/
theorem C8_supply_limit (s : State) (ts : Nat) (caller tgt : Addr) (uri : String)
    (attrs : List TokenAttribute) (roy : Option RoyaltyInfo) (m : Nat)
    (hmax : s.maxSupply = some m) (hm : s.minters caller = true) (hp : s.paused = false)
    (hw : s.whitelistOnlyMint = true → s.whitelist caller = true)
    (hlock : s.reentrancyLock = false) :
    ((mint s ts caller tgt uri attrs roy).1 = .error .SupplyLimitExceeded ↔ m ≤ s.totalSupply) ∧
    (m ≤ s.totalSupply → mint s ts caller tgt uri attrs roy = (.error .SupplyLimitExceeded, s)) ∧
    (mint stCapReady 0 1 2 "t" [] none).1 = .ok 0 ∧
    (mint stCapFull 0 1 2 "t" [] none).1 = .error .SupplyLimitExceeded := by
  have hbody : ∀ s2 : State,
      (mint_body s2 ts caller tgt uri attrs roy).1 ≠ .error .SupplyLimitExceeded := by
    intro s2
    unfold mint_body mint_finish
    dsimp only
    rcases roy with _ | r
    · cases hd : s2.defaultRoyalty <;> simp [hd]
    · by_cases hv : r.percentage ≤ 10000 <;> simp [validate_royalty_bps, hv]
  have hwl : (if s.whitelistOnlyMint then require_whitelisted s caller else .ok ()) =
      Except.ok () := by
    by_cases hwo : s.whitelistOnlyMint = true
    · simp [hwo, require_whitelisted, hw hwo]
    · simp [hwo]
  have hrun : mint_run s ts caller tgt uri attrs roy =
      ((mint_internal { s with reentrancyLock := true } ts caller tgt uri attrs roy).1,
        reentrancy_release
          (mint_internal { s with reentrancyLock := true } ts caller tgt uri attrs roy).2) := by
    unfold mint_run
    rw [show require_minter s caller = Except.ok () from by simp [require_minter, hm]]
    rw [show require_not_paused s = Except.ok () from by simp [require_not_paused, hp]]
    rw [hwl]
    dsimp only
    rw [show reentrancy_acquire s = (Except.ok (), { s with reentrancyLock := true }) from by
      simp [reentrancy_acquire, hlock]]
  by_cases hle : m ≤ s.totalSupply
  · have hint : mint_internal { s with reentrancyLock := true } ts caller tgt uri attrs roy =
        (.error .SupplyLimitExceeded, { s with reentrancyLock := true }) := by
      unfold mint_internal
      dsimp only
      rw [hmax]
      simp [hle]
    have hmint : mint s ts caller tgt uri attrs roy = (.error .SupplyLimitExceeded, s) := by
      unfold mint
      rw [frame_of_error s _ .SupplyLimitExceeded (by rw [hrun, hint])]
    rw [hmint]
    exact ⟨by simp [hle], fun _ => rfl, by decide, by decide⟩
  · have hint : mint_internal { s with reentrancyLock := true } ts caller tgt uri attrs roy =
        mint_body { s with reentrancyLock := true } ts caller tgt uri attrs roy := by
      unfold mint_internal
      dsimp only
      rw [hmax]
      simp [hle]
    have h1 : (mint s ts caller tgt uri attrs roy).1 =
        (mint_body { s with reentrancyLock := true } ts caller tgt uri attrs roy).1 := by
      unfold mint
      rw [frame_fst, hrun]
      dsimp only
      rw [hint]
    refine ⟨?_, fun hc => absurd hc hle, by decide, by decide⟩
    rw [h1]
    simp only [hle, iff_false]
    exact hbody { s with reentrancyLock := true }

/-- Claim C8 witness: applying the theorem to the concrete state after the
single allowed mint (`stCapFull`, total supply 1, max supply 1) shows the
second mint returns SupplyLimitExceeded and leaves storage unchanged. -/
theorem C8_supply_limit_witness :
    mint stCapFull 0 1 2 "t" [] none = (.error .SupplyLimitExceeded, stCapFull) :=
  (C8_supply_limit stCapFull 0 1 2 "t" [] none 1 (by decide) (by decide) (by decide)
    (by decide) (by decide)).2.1 (by decide)

theorem require_can_transfer_lockset (s : State) (frm : Addr) (tid : Nat) :
    require_can_transfer { s with reentrancyLock := true } frm tid =
      require_can_transfer s frm tid := rfl

theorem check_all_lockset (s : State) (frm : Addr) :
    ∀ l, check_all { s with reentrancyLock := true } frm l = check_all s frm l := by
  intro l
  induction l with
  | nil => rfl
  | cons x xs ih =>
    unfold check_all
    rw [ih, require_can_transfer_lockset]

theorem check_all_of_each (s : State) (frm : Addr) :
    ∀ l, (∀ x ∈ l, require_can_transfer s frm x = .ok ()) → check_all s frm l = .ok () := by
  intro l
  induction l with
  | nil => intro _; rfl
  | cons x xs ih =>
    intro h
    unfold check_all
    rw [h x (List.mem_cons_self x xs)]
    exact ih (fun t ht => h t (List.mem_cons_of_mem _ ht))

/-- Claim C3 (amended): with the pause flag set, the pause-gated mutating
operations — `mint` and `batch_mint` (whose role/whitelist/length checks run
before the pause check), and `transfer`, `safe_transfer_from` and
`batch_transfer` (whose pause check sits in `do_transfer`, after
authorization) — fail with Paused and leave storage unchanged; `burn`,
`approve`, `set_approval_for_all`, `set_token_uri` and `set_edition_info`
are not pause-gated and succeed while paused. -/
theorem C3_pause_gating (s : State) (hpz : s.paused = true) (hlock : s.reentrancyLock = false) :
    (∀ ts caller tgt uri attrs roy, s.minters caller = true →
      mint s ts caller tgt uri attrs roy = (.error .Paused, s)) ∧
    (∀ ts caller rs us ats, rs.length = us.length → rs.length = ats.length →
      s.minters caller = true →
      batch_mint s ts caller rs us ats = (.error .Paused, s)) ∧
    (∀ frm tgt tid, require_can_transfer s frm tid = .ok () →
      transfer s frm tgt tid = (.error .Paused, s)) ∧
    (∀ ca oc frm tgt tid d, require_can_transfer s frm tid = .ok () →
      safe_transfer_from s ca oc frm tgt tid d = (.error .Paused, s)) ∧
    (∀ frm tgt tid tids, (∀ x ∈ tid :: tids, require_can_transfer s frm x = .ok ()) →
      batch_transfer s frm tgt (tid :: tids) = (.error .Paused, s)) ∧
    (∀ caller tid, s.owners tid = some caller → (burn s caller tid true).1 = .ok ()) ∧
    (∀ caller ap tid, s.owners tid = some caller → (approve s caller ap tid).1 = .ok ()) ∧
    (∀ caller op_ b, (set_approval_for_all s caller op_ b).1 = .ok ()) ∧
    (∀ caller tid uri, s.metadataFrozen = false → s.owners tid = some caller →
      (set_token_uri s tid uri caller).1 = .ok ()) ∧
    (∀ caller tid en te, s.metadataFrozen = false → s.owners tid = some caller →
      (set_edition_info s tid en te caller).1 = .ok ()) := by
  have hacq : reentrancy_acquire s = (Except.ok (), { s with reentrancyLock := true }) := by
    simp [reentrancy_acquire, hlock]
  have hdtp : ∀ frm tgt tid, do_transfer { s with reentrancyLock := true } frm tgt tid =
      (.error .Paused, { s with reentrancyLock := true }) := by
    intro frm tgt tid
    simp [do_transfer, require_not_paused, hpz]
  refine ⟨?_, ?_, ?_, ?_, ?_, ?_, ?_, ?_, ?_, ?_⟩
  · intro ts caller tgt uri attrs roy hm
    have hrun : (mint_run s ts caller tgt uri attrs roy).1 = .error .Paused := by
      unfold mint_run
      rw [show require_minter s caller = Except.ok () from by simp [require_minter, hm]]
      rw [show require_not_paused s = Except.error .Paused from by
        simp [require_not_paused, hpz]]
    unfold mint
    rw [frame_of_error s _ .Paused hrun]
  · intro ts caller rs us ats hl1 hl2 hm
    have hrun : (batch_mint_run s ts caller rs us ats).1 = .error .Paused := by
      unfold batch_mint_run
      rw [if_neg (by push_neg; exact ⟨hl1, hl2⟩)]
      rw [show require_minter s caller = Except.ok () from by simp [require_minter, hm]]
      rw [show require_not_paused s = Except.error .Paused from by
        simp [require_not_paused, hpz]]
    unfold batch_mint
    rw [frame_of_error s _ .Paused hrun]
  · intro frm tgt tid hct
    have hrun : (transfer_run s frm tgt tid).1 = .error .Paused := by
      unfold transfer_run
      rw [hacq]
      dsimp only
      rw [require_can_transfer_lockset, hct]
      dsimp only
      rw [hdtp]
    unfold transfer
    rw [frame_of_error s _ .Paused hrun]
  · intro ca oc frm tgt tid d hct
    have hrun : (safe_transfer_from_run s ca oc frm tgt tid d).1 = .error .Paused := by
      unfold safe_transfer_from_run
      rw [hacq]
      dsimp only
      rw [require_can_transfer_lockset, hct]
      dsimp only
      rw [hdtp]
    unfold safe_transfer_from
    rw [frame_of_error s _ .Paused hrun]
  · intro frm tgt tid tids hcts
    have hrun : (batch_transfer_run s frm tgt (tid :: tids)).1 = .error .Paused := by
      unfold batch_transfer_run
      rw [hacq]
      dsimp only
      rw [check_all_lockset, check_all_of_each s frm (tid :: tids) hcts]
      dsimp only
      unfold apply_all
      dsimp only
      rw [hdtp]
    unfold batch_transfer
    rw [frame_of_error s _ .Paused hrun]
  · intro caller tid hown
    have hrun : (burn_run s caller tid true).1 = .ok () := by
      unfold burn_run
      rw [if_neg (by simp)]
      rw [hacq]
      dsimp only
      unfold burn_internal
      dsimp only
      rw [show ({ s with reentrancyLock := true } : State).owners tid = some caller from hown]
      dsimp only
      rw [if_pos rfl]
    unfold burn
    rw [frame_fst]
    exact hrun
  · intro caller ap tid hown
    unfold approve
    rw [hown]
    dsimp only
    rw [if_neg (by simp)]
  · intro caller op_ b
    rfl
  · intro caller tid uri hfz hown
    unfold set_token_uri
    rw [if_neg (by simp [hfz])]
    rw [hown]
    dsimp only
    rw [if_neg (by simp)]
  · intro caller tid en te hfz hown
    unfold set_edition_info
    rw [if_neg (by simp [hfz])]
    rw [hown]
    dsimp only
    rw [if_neg (by simp)]

/-- Claim C3 witness: on the concrete paused state `stPaused`, a transfer of
token 0 by its owner fails with Paused and leaves storage unchanged. -/
theorem C3_pause_gating_witness :
    transfer stPaused 1 2 0 = (.error .Paused, stPaused) :=
  (C3_pause_gating stPaused rfl rfl).2.2.1 1 2 0 (by decide)

/-- Claim C4 (amended): the six balance/supply-mutating operations (mint,
batch_mint, burn, transfer, safe_transfer_from, batch_transfer) acquire the
reentrancy lock before mutating: invoked with the lock held (after their
pre-lock argument/role checks pass) they fail with ReentrancyDetected and
leave storage unchanged, and each of them leaves the lock released on every
exit path when it was free on entry.  `approve` and `set_approval_for_all`
mutate the approval maps without acquiring the lock, as the counterexample
shows. -/
theorem C4_reentrancy_guard (s : State) :
    (s.reentrancyLock = true →
      (∀ ts caller tgt uri attrs roy, s.minters caller = true → s.paused = false →
        (s.whitelistOnlyMint = true → s.whitelist caller = true) →
        mint s ts caller tgt uri attrs roy = (.error .ReentrancyDetected, s)) ∧
      (∀ ts caller rs us ats, rs.length = us.length → rs.length = ats.length →
        s.minters caller = true → s.paused = false →
        (s.whitelistOnlyMint = true → s.whitelist caller = true) →
        batch_mint s ts caller rs us ats = (.error .ReentrancyDetected, s)) ∧
      (∀ caller tid, burn s caller tid true = (.error .ReentrancyDetected, s)) ∧
      (∀ frm tgt tid, transfer s frm tgt tid = (.error .ReentrancyDetected, s)) ∧
      (∀ ca oc frm tgt tid d,
        safe_transfer_from s ca oc frm tgt tid d = (.error .ReentrancyDetected, s)) ∧
      (∀ frm tgt tids, batch_transfer s frm tgt tids = (.error .ReentrancyDetected, s))) ∧
    (s.reentrancyLock = false →
      (∀ ts caller tgt uri attrs roy,
        (mint s ts caller tgt uri attrs roy).2.reentrancyLock = false) ∧
      (∀ ts caller rs us ats,
        (batch_mint s ts caller rs us ats).2.reentrancyLock = false) ∧
      (∀ caller tid confirm, (burn s caller tid confirm).2.reentrancyLock = false) ∧
      (∀ frm tgt tid, (transfer s frm tgt tid).2.reentrancyLock = false) ∧
      (∀ ca oc frm tgt tid d,
        (safe_transfer_from s ca oc frm tgt tid d).2.reentrancyLock = false) ∧
      (∀ frm tgt tids, (batch_transfer s frm tgt tids).2.reentrancyLock = false)) := by
  constructor
  · intro hl
    have hacqE : reentrancy_acquire s = (Except.error .ReentrancyDetected, s) := by
      simp [reentrancy_acquire, hl]
    have hwl : ∀ caller : Addr, (s.whitelistOnlyMint = true → s.whitelist caller = true) →
        (if s.whitelistOnlyMint then require_whitelisted s caller else .ok ()) =
          Except.ok () := by
      intro caller hw
      by_cases hwo : s.whitelistOnlyMint = true
      · simp [hwo, require_whitelisted, hw hwo]
      · simp [hwo]
    refine ⟨?_, ?_, ?_, ?_, ?_, ?_⟩
    · intro ts caller tgt uri attrs roy hm hp hw
      have hrun : mint_run s ts caller tgt uri attrs roy =
          (.error .ReentrancyDetected, s) := by
        unfold mint_run
        rw [show require_minter s caller = Except.ok () from by simp [require_minter, hm]]
        rw [show require_not_paused s = Except.ok () from by
          simp [require_not_paused, hp]]
        rw [hwl caller hw]
        dsimp only
        rw [hacqE]
      unfold mint
      rw [frame_of_error s _ .ReentrancyDetected (by rw [hrun])]
    · intro ts caller rs us ats hl1 hl2 hm hp hw
      have hrun : batch_mint_run s ts caller rs us ats =
          (.error .ReentrancyDetected, s) := by
        unfold batch_mint_run
        rw [if_neg (by push_neg; exact ⟨hl1, hl2⟩)]
        rw [show require_minter s caller = Except.ok () from by simp [require_minter, hm]]
        rw [show require_not_paused s = Except.ok () from by
          simp [require_not_paused, hp]]
        rw [hwl caller hw]
        dsimp only
        rw [hacqE]
      unfold batch_mint
      rw [frame_of_error s _ .ReentrancyDetected (by rw [hrun])]
    · intro caller tid
      have hrun : burn_run s caller tid true = (.error .ReentrancyDetected, s) := by
        unfold burn_run
        rw [if_neg (by simp)]
        rw [hacqE]
      unfold burn
      rw [frame_of_error s _ .ReentrancyDetected (by rw [hrun])]
    · intro frm tgt tid
      have hrun : transfer_run s frm tgt tid = (.error .ReentrancyDetected, s) := by
        unfold transfer_run
        rw [hacqE]
      unfold transfer
      rw [frame_of_error s _ .ReentrancyDetected (by rw [hrun])]
    · intro ca oc frm tgt tid d
      have hrun : safe_transfer_from_run s ca oc frm tgt tid d =
          (.error .ReentrancyDetected, s) := by
        unfold safe_transfer_from_run
        rw [hacqE]
      unfold safe_transfer_from
      rw [frame_of_error s _ .ReentrancyDetected (by rw [hrun])]
    · intro frm tgt tids
      have hrun : batch_transfer_run s frm tgt tids =
          (.error .ReentrancyDetected, s) := by
        unfold batch_transfer_run
        rw [hacqE]
      unfold batch_transfer
      rw [frame_of_error s _ .ReentrancyDetected (by rw [hrun])]
  · intro hl
    have hacq : reentrancy_acquire s = (Except.ok (), { s with reentrancyLock := true }) := by
      simp [reentrancy_acquire, hl]
    refine ⟨?_, ?_, ?_, ?_, ?_, ?_⟩
    · intro ts caller tgt uri attrs roy
      unfold mint
      rcases frame_cases s (mint_run s ts caller tgt uri attrs roy) with h | h
      · rw [h]; exact hl
      · rw [h]
        unfold mint_run
        rw [hacq]
        repeat' split
        all_goals first | exact hl | rfl
    · intro ts caller rs us ats
      unfold batch_mint
      rcases frame_cases s (batch_mint_run s ts caller rs us ats) with h | h
      · rw [h]; exact hl
      · rw [h]
        unfold batch_mint_run
        rw [hacq]
        repeat' split
        all_goals first | exact hl | rfl
    · intro caller tid confirm
      unfold burn
      rcases frame_cases s (burn_run s caller tid confirm) with h | h
      · rw [h]; exact hl
      · rw [h]
        unfold burn_run
        rw [hacq]
        repeat' split
        all_goals first | exact hl | rfl
    · intro frm tgt tid
      unfold transfer
      rcases frame_cases s (transfer_run s frm tgt tid) with h | h
      · rw [h]; exact hl
      · rw [h]
        unfold transfer_run
        rw [hacq]
        rfl
    · intro ca oc frm tgt tid d
      unfold safe_transfer_from
      rcases frame_cases s (safe_transfer_from_run s ca oc frm tgt tid d) with h | h
      · rw [h]; exact hl
      · rw [h]
        unfold safe_transfer_from_run
        rw [hacq]
        rfl
    · intro frm tgt tids
      unfold batch_transfer
      rcases frame_cases s (batch_transfer_run s frm tgt tids) with h | h
      · rw [h]; exact hl
      · rw [h]
        unfold batch_transfer_run
        rw [hacq]
        rfl

/-- Claim C4 witness: on the concrete locked state `stLocked` (as during a
receiver callback), a nested `transfer` fails with ReentrancyDetected and
changes nothing. -/
theorem C4_reentrancy_guard_witness :
    transfer stLocked 1 2 0 = (.error .ReentrancyDetected, stLocked) :=
  ((C4_reentrancy_guard stLocked).1 rfl).2.2.2.1 1 2 0

theorem do_transfer_ok_approved (s : State) (frm tgt : Addr) (tid : Nat)
    (h1 : (do_transfer s frm tgt tid).1 = .ok ()) (hft : frm ≠ tgt) :
    (do_transfer s frm tgt tid).2.approved tid = none := by
  unfold do_transfer at h1 ⊢
  cases hnp : require_not_paused s with
  | error e => rw [hnp] at h1; simp at h1
  | ok u =>
    rw [hnp] at h1
    cases hw : s.owners tid with
    | none => rw [hw] at h1; simp at h1
    | some o =>
      rw [hw] at h1
      by_cases ho : o = frm
      · subst ho
        simp [hft, upd]
      · simp [ho] at h1

theorem do_transfer_approved_mono (s : State) (frm tgt : Addr) (tid x : Nat)
    (h : s.approved x = none) :
    (do_transfer s frm tgt tid).2.approved x = none := by
  unfold do_transfer
  repeat' split
  all_goals try exact h
  dsimp only
  by_cases hx : x = tid
  · subst hx; simp [upd]
  · simp [upd, hx, h]

theorem apply_all_approved_mono (frm tgt : Addr) : ∀ (l : List Nat) (s : State) (x : Nat),
    s.approved x = none → (apply_all frm tgt s l).2.approved x = none := by
  intro l
  induction l with
  | nil => intro s x h; exact h
  | cons t ts ih =>
    intro s x h
    unfold apply_all
    dsimp only
    split
    · exact do_transfer_approved_mono s frm tgt t x h
    · exact ih _ x (do_transfer_approved_mono s frm tgt t x h)

theorem apply_all_ok_approved (frm tgt : Addr) : ∀ (l : List Nat) (s : State),
    (apply_all frm tgt s l).1 = .ok () → frm ≠ tgt →
    ∀ x ∈ l, (apply_all frm tgt s l).2.approved x = none := by
  intro l
  induction l with
  | nil => intro s _ _ x hx; simp at hx
  | cons t ts ih =>
    intro s h hft x hx
    unfold apply_all at h ⊢
    dsimp only at h ⊢
    cases hdt : (do_transfer s frm tgt t).1 with
    | error e => rw [hdt] at h; simp at h
    | ok u =>
      rw [hdt] at h
      dsimp only at h ⊢
      rcases List.mem_cons.mp hx with rfl | hx2
      · exact apply_all_approved_mono frm tgt ts (do_transfer s frm tgt x).2 x
          (do_transfer_ok_approved s frm tgt x hdt hft)
      · exact ih (do_transfer s frm tgt t).2 h hft x hx2

/-- Claim C6 (amended): immediately after any successful transfer with
`from ≠ to` — via `transfer`, `safe_transfer_from` or `batch_transfer` — or
any successful burn, the item's approved-spender field is unset; a
self-transfer (`from = to`) returns success before the approval-clearing
write and leaves the approval unchanged, as the counterexample shows. -/
theorem C6_approval_cleared (s : State) (frm tgt : Addr) (tid : Nat) :
    (frm ≠ tgt → (transfer s frm tgt tid).1 = .ok () →
      (transfer s frm tgt tid).2.approved tid = none) ∧
    (∀ ca oc d, frm ≠ tgt → (safe_transfer_from s ca oc frm tgt tid d).1 = .ok () →
      (safe_transfer_from s ca oc frm tgt tid d).2.approved tid = none) ∧
    (∀ tids, frm ≠ tgt → (batch_transfer s frm tgt tids).1 = .ok () →
      ∀ x ∈ tids, (batch_transfer s frm tgt tids).2.approved x = none) ∧
    (∀ caller, (burn s caller tid true).1 = .ok () →
      (burn s caller tid true).2.approved tid = none) := by
  refine ⟨?_, ?_, ?_, ?_⟩
  · intro hft hok
    have hok1 : (transfer_run s frm tgt tid).1 = .ok () := by
      rw [← frame_fst s (transfer_run s frm tgt tid)]; exact hok
    unfold transfer
    rw [frame_of_ok s _ () hok1]
    unfold transfer_run at hok1 ⊢
    cases hl : s.reentrancyLock with
    | true =>
      rw [show reentrancy_acquire s = (Except.error .ReentrancyDetected, s) from by
        simp [reentrancy_acquire, hl]] at hok1
      simp at hok1
    | false =>
      rw [show reentrancy_acquire s = (Except.ok (), { s with reentrancyLock := true }) from by
        simp [reentrancy_acquire, hl]] at hok1 ⊢
      dsimp only at hok1 ⊢
      cases hct : require_can_transfer { s with reentrancyLock := true } frm tid with
      | error e => rw [hct] at hok1; simp at hok1
      | ok u =>
        rw [hct] at hok1
        dsimp only at hok1 ⊢
        exact do_transfer_ok_approved _ frm tgt tid hok1 hft
  · intro ca oc d hft hok
    have hok1 : (safe_transfer_from_run s ca oc frm tgt tid d).1 = .ok () := by
      rw [← frame_fst s (safe_transfer_from_run s ca oc frm tgt tid d)]; exact hok
    unfold safe_transfer_from
    rw [frame_of_ok s _ () hok1]
    unfold safe_transfer_from_run at hok1 ⊢
    cases hl : s.reentrancyLock with
    | true =>
      rw [show reentrancy_acquire s = (Except.error .ReentrancyDetected, s) from by
        simp [reentrancy_acquire, hl]] at hok1
      simp at hok1
    | false =>
      rw [show reentrancy_acquire s = (Except.ok (), { s with reentrancyLock := true }) from by
        simp [reentrancy_acquire, hl]] at hok1 ⊢
      dsimp only at hok1 ⊢
      cases hct : require_can_transfer { s with reentrancyLock := true } frm tid with
      | error e => rw [hct] at hok1; simp at hok1
      | ok u =>
        rw [hct] at hok1
        dsimp only at hok1 ⊢
        cases hdt : (do_transfer { s with reentrancyLock := true } frm tgt tid).1 with
        | error e => rw [hdt] at hok1; simp at hok1
        | ok u2 =>
          rw [hdt] at hok1
          dsimp only at hok1 ⊢
          by_cases hca : tgt ≠ ca
          · rw [if_pos hca] at hok1 ⊢
            cases oc with
            | recvErr =>
              exact do_transfer_ok_approved _ frm tgt tid hdt hft
            | execFailure =>
              exact do_transfer_ok_approved _ frm tgt tid hdt hft
            | okOk =>
              exact do_transfer_ok_approved _ frm tgt tid hdt hft
            | okErr => simp at hok1
          · rw [if_neg hca] at hok1 ⊢
            exact do_transfer_ok_approved _ frm tgt tid hdt hft
  · intro tids hft hok x hx
    have hok1 : (batch_transfer_run s frm tgt tids).1 = .ok () := by
      rw [← frame_fst s (batch_transfer_run s frm tgt tids)]; exact hok
    unfold batch_transfer
    rw [frame_of_ok s _ () hok1]
    unfold batch_transfer_run at hok1 ⊢
    cases hl : s.reentrancyLock with
    | true =>
      rw [show reentrancy_acquire s = (Except.error .ReentrancyDetected, s) from by
        simp [reentrancy_acquire, hl]] at hok1
      simp at hok1
    | false =>
      rw [show reentrancy_acquire s = (Except.ok (), { s with reentrancyLock := true }) from by
        simp [reentrancy_acquire, hl]] at hok1 ⊢
      dsimp only at hok1 ⊢
      cases hchk : check_all { s with reentrancyLock := true } frm tids with
      | error e => rw [hchk] at hok1; simp at hok1
      | ok u =>
        rw [hchk] at hok1
        dsimp only at hok1 ⊢
        exact apply_all_ok_approved frm tgt tids _ hok1 hft x hx
  · intro caller hok
    have hok1 : (burn_run s caller tid true).1 = .ok () := by
      rw [← frame_fst s (burn_run s caller tid true)]; exact hok
    unfold burn
    rw [frame_of_ok s _ () hok1]
    unfold burn_run at hok1 ⊢
    rw [if_neg (by simp)] at hok1 ⊢
    cases hl : s.reentrancyLock with
    | true =>
      rw [show reentrancy_acquire s = (Except.error .ReentrancyDetected, s) from by
        simp [reentrancy_acquire, hl]] at hok1
      simp at hok1
    | false =>
      rw [show reentrancy_acquire s = (Except.ok (), { s with reentrancyLock := true }) from by
        simp [reentrancy_acquire, hl]] at hok1 ⊢
      dsimp only at hok1 ⊢
      unfold burn_internal at hok1 ⊢
      dsimp only at hok1 ⊢
      cases hw : s.owners tid with
      | none => rw [hw] at hok1; simp at hok1
      | some o =>
        rw [hw] at hok1
        dsimp only at hok1 ⊢
        cases hauth : (if caller = o then Except.ok ()
            else require_burner { s with reentrancyLock := true } caller) with
        | error e => rw [hauth] at hok1; simp at hok1
        | ok u =>
          simp [reentrancy_release, upd]

/-- Claim C6 witness: on `stOwned` (token 0 approved to user 9), a transfer
from user 1 to user 2 succeeds and clears the approval. -/
theorem C6_approval_cleared_witness :
    (transfer stOwned 1 2 0).2.approved 0 = none :=
  (C6_approval_cleared stOwned 1 2 0).1 (by decide) (by decide)

/-- Claim C9 witness: on `stOwned`, the owner (user 1) approving user 5 for
token 0 succeeds and overwrites the previously approved user 9. -/
theorem C9_approve_semantics_witness :
    approve stOwned 1 5 0 =
      (.ok (), { stOwned with approved := upd stOwned.approved 0 (some 5) }) :=
  (C9_approve_semantics stOwned 1 5 0).2.2.1 1 (by decide) (Or.inl rfl)



theorem do_transfer_ok_owner (s : State) (frm tgt : Addr) (tid : Nat)
    (h1 : (do_transfer s frm tgt tid).1 = .ok ()) :
    (do_transfer s frm tgt tid).2.owners tid = some tgt := by
  unfold do_transfer at h1 ⊢
  cases hnp : require_not_paused s with
  | error e => rw [hnp] at h1; simp at h1
  | ok u =>
    rw [hnp] at h1
    cases hw : s.owners tid with
    | none => rw [hw] at h1; simp at h1
    | some o =>
      rw [hw] at h1
      by_cases ho : o = frm
      · subst ho
        by_cases hft : o = tgt
        · subst hft
          simp [hw]
        · simp [hft, upd]
      · simp [ho] at h1

theorem do_transfer_owner_tgt_mono (s : State) (frm tgt : Addr) (tid x : Nat)
    (h : s.owners x = some tgt) :
    (do_transfer s frm tgt tid).2.owners x = some tgt := by
  unfold do_transfer
  repeat' split
  all_goals try exact h
  dsimp only
  by_cases hx : x = tid
  · subst hx; simp [upd]
  · simp [upd, hx, h]

theorem apply_all_owner_tgt_mono (frm tgt : Addr) : ∀ (l : List Nat) (s : State) (x : Nat),
    s.owners x = some tgt → (apply_all frm tgt s l).2.owners x = some tgt := by
  intro l
  induction l with
  | nil => intro s x h; exact h
  | cons t ts ih =>
    intro s x h
    unfold apply_all
    dsimp only
    split
    · exact do_transfer_owner_tgt_mono s frm tgt t x h
    · exact ih _ x (do_transfer_owner_tgt_mono s frm tgt t x h)

theorem apply_all_ok_owner (frm tgt : Addr) : ∀ (l : List Nat) (s : State),
    (apply_all frm tgt s l).1 = .ok () →
    ∀ x ∈ l, (apply_all frm tgt s l).2.owners x = some tgt := by
  intro l
  induction l with
  | nil => intro s _ x hx; simp at hx
  | cons t ts ih =>
    intro s h x hx
    unfold apply_all at h ⊢
    dsimp only at h ⊢
    cases hdt : (do_transfer s frm tgt t).1 with
    | error e => rw [hdt] at h; simp at h
    | ok u =>
      rw [hdt] at h
      dsimp only at h ⊢
      rcases List.mem_cons.mp hx with rfl | hx2
      · exact apply_all_owner_tgt_mono frm tgt ts (do_transfer s frm tgt x).2 x
          (do_transfer_ok_owner s frm tgt x hdt)
      · exact ih (do_transfer s frm tgt t).2 h x hx2

/-- Claim C2: `batch_transfer` is observably all-or-nothing.  The first pass
checks authorization for every id; the second pass can in fact fail midway
(it additionally requires `from` to be the recorded owner, which an
approval- or operator-authorized item does not satisfy), but the invocation
frame discards every write of a failed call, so the caller observes either
full success — every listed item owned by `to` — or an error with the
storage exactly as before the call. -/
theorem C2_batch_transfer_atomic (s : State) (frm tgt : Addr) (tids : List Nat) :
    ((batch_transfer s frm tgt tids).1 = .ok () →
      ∀ x ∈ tids, (batch_transfer s frm tgt tids).2.owners x = some tgt) ∧
    (∀ e, (batch_transfer s frm tgt tids).1 = .error e →
      (batch_transfer s frm tgt tids).2 = s) := by
  constructor
  · intro hok x hx
    have hok1 : (batch_transfer_run s frm tgt tids).1 = .ok () := by
      rw [← frame_fst s (batch_transfer_run s frm tgt tids)]; exact hok
    unfold batch_transfer
    rw [frame_of_ok s _ () hok1]
    unfold batch_transfer_run at hok1 ⊢
    cases hl : s.reentrancyLock with
    | true =>
      rw [show reentrancy_acquire s = (Except.error .ReentrancyDetected, s) from by
        simp [reentrancy_acquire, hl]] at hok1
      simp at hok1
    | false =>
      rw [show reentrancy_acquire s = (Except.ok (), { s with reentrancyLock := true }) from by
        simp [reentrancy_acquire, hl]] at hok1 ⊢
      dsimp only at hok1 ⊢
      cases hchk : check_all { s with reentrancyLock := true } frm tids with
      | error e => rw [hchk] at hok1; simp at hok1
      | ok u =>
        rw [hchk] at hok1
        dsimp only at hok1 ⊢
        exact apply_all_ok_owner frm tgt tids _ hok1 x hx
  · intro e he
    exact frame_err_snd s _ e he

/-- Claim C2 witness: on `stOwned`, a one-item batch from its owner succeeds
with the item at the target; on `stTwoTokens` — where user 1 owns token 0
but is only the approved spender of token 1 — the batch passes the check
pass, fails in the apply pass, and the caller observes the exact pre-call
storage. -/
theorem C2_batch_transfer_atomic_witness :
    (batch_transfer stOwned 1 2 [0]).2.owners 0 = some 2 ∧
    (batch_transfer stTwoTokens 1 2 [0, 1]).2 = stTwoTokens :=
  ⟨(C2_batch_transfer_atomic stOwned 1 2 [0]).1 (by decide) 0 (by decide),
   (C2_batch_transfer_atomic stTwoTokens 1 2 [0, 1]).2 .NotAuthorized (by decide)⟩

/-- Claim C5: refuted — the receiver's `nft_recv` returning an error value
fails the receiver's frame and surfaces as the outer `Err` of
`try_invoke_contract`, which the source's `if let Ok(Err(_))` match never
fires on; no compensating transfer happens and no TransferRejected is
reported.  On `stOwned` (user 1 owns token 0), a `safe_transfer_from` to
user 2 whose receiver invocation returns an error succeeds from the
caller's point of view with the item owned by user 2 — directly
contradicting "an error is returned and the item is owned by from again"
and the function's own doc comment. -/
theorem C5_receiver_rejection_not_compensated :
    (safe_transfer_from stOwned 50 .recvErr 1 2 0 none).1 = .ok () ∧
    (safe_transfer_from stOwned 50 .recvErr 1 2 0 none).2.owners 0 = some 2 ∧
    (safe_transfer_from stOwned 50 .recvErr 1 2 0 none).2.balances 1 = 0 ∧
    (safe_transfer_from stOwned 50 .recvErr 1 2 0 none).2.balances 2 = 1 := by decide

theorem safe_run_outcome_irrelevant (s : State) (ca : Addr) (oc : InvokeOutcome)
    (hoc : oc ≠ .okErr) (frm tgt : Addr) (tid : Nat) (d : Option (List Nat)) :
    safe_transfer_from_run s ca oc frm tgt tid d
      = safe_transfer_from_run s ca .okOk frm tgt tid d := by
  cases oc with
  | recvErr => rfl
  | execFailure => rfl
  | okOk => rfl
  | okErr => exact absurd rfl hoc

theorem safe_run_ok_owner (s : State) (ca : Addr) (oc : InvokeOutcome) (frm tgt : Addr)
    (tid : Nat) (d : Option (List Nat))
    (h : (safe_transfer_from_run s ca oc frm tgt tid d).1 = .ok ()) :
    (safe_transfer_from_run s ca oc frm tgt tid d).2.owners tid = some tgt := by
  unfold safe_transfer_from_run at h ⊢
  cases hl : s.reentrancyLock with
  | true =>
    rw [show reentrancy_acquire s = (Except.error .ReentrancyDetected, s) from by
      simp [reentrancy_acquire, hl]] at h
    simp at h
  | false =>
    rw [show reentrancy_acquire s = (Except.ok (), { s with reentrancyLock := true }) from by
      simp [reentrancy_acquire, hl]] at h ⊢
    dsimp only at h ⊢
    cases hct : require_can_transfer { s with reentrancyLock := true } frm tid with
    | error e => rw [hct] at h; simp at h
    | ok u =>
      rw [hct] at h
      dsimp only at h ⊢
      cases hdt : (do_transfer { s with reentrancyLock := true } frm tgt tid).1 with
      | error e => rw [hdt] at h; simp at h
      | ok u2 =>
        rw [hdt] at h
        dsimp only at h ⊢
        by_cases hca : tgt ≠ ca
        · rw [if_pos hca] at h ⊢
          cases oc with
          | recvErr => exact do_transfer_ok_owner _ frm tgt tid hdt
          | execFailure => exact do_transfer_ok_owner _ frm tgt tid hdt
          | okOk => exact do_transfer_ok_owner _ frm tgt tid hdt
          | okErr => simp at h
        · rw [if_neg hca] at h ⊢
          exact do_transfer_ok_owner _ frm tgt tid hdt

/-- Claim C10 (amended): a receiver-returned error value (the outer
`Err(Ok(_))` of `try_invoke_contract`) does NOT trigger the compensating
transfer — it is swallowed exactly like a host-level execution failure, and
in both cases the call behaves as if the receiver had accepted: success
with the item owned by `to`.  The only outcome the `Ok(Err(_))` arm fires
on is a successful invocation whose returned value fails conversion; then
the call returns TransferRejected and (the frame having been discarded)
the observable storage is the pre-call state. -/
theorem C10_invoke_outcome_semantics (s : State) (ca frm tgt : Addr) (tid : Nat)
    (d : Option (List Nat)) :
    safe_transfer_from s ca .recvErr frm tgt tid d
      = safe_transfer_from s ca .okOk frm tgt tid d ∧
    safe_transfer_from s ca .execFailure frm tgt tid d
      = safe_transfer_from s ca .okOk frm tgt tid d ∧
    ((safe_transfer_from s ca .execFailure frm tgt tid d).1 = .ok () →
      (safe_transfer_from s ca .execFailure frm tgt tid d).2.owners tid = some tgt) ∧
    (tgt ≠ ca → (safe_transfer_from s ca .okOk frm tgt tid d).1 = .ok () →
      safe_transfer_from s ca .okErr frm tgt tid d = (.error .TransferRejected, s)) := by
  refine ⟨?_, ?_, ?_, ?_⟩
  · exact congrArg (frame s)
      (safe_run_outcome_irrelevant s ca .recvErr (by decide) frm tgt tid d)
  · exact congrArg (frame s)
      (safe_run_outcome_irrelevant s ca .execFailure (by decide) frm tgt tid d)
  · intro hok
    have hok1 : (safe_transfer_from_run s ca .execFailure frm tgt tid d).1 = .ok () := by
      rw [← frame_fst s (safe_transfer_from_run s ca .execFailure frm tgt tid d)]; exact hok
    unfold safe_transfer_from
    rw [frame_of_ok s _ () hok1]
    exact safe_run_ok_owner s ca .execFailure frm tgt tid d hok1
  · intro hca hok
    have hok1 : (safe_transfer_from_run s ca .okOk frm tgt tid d).1 = .ok () := by
      rw [← frame_fst s (safe_transfer_from_run s ca .okOk frm tgt tid d)]; exact hok
    have herr : (safe_transfer_from_run s ca .okErr frm tgt tid d).1
        = .error .TransferRejected := by
      unfold safe_transfer_from_run at hok1 ⊢
      cases hl : s.reentrancyLock with
      | true =>
        rw [show reentrancy_acquire s = (Except.error .ReentrancyDetected, s) from by
          simp [reentrancy_acquire, hl]] at hok1
        simp at hok1
      | false =>
        rw [show reentrancy_acquire s = (Except.ok (), { s with reentrancyLock := true })
          from by simp [reentrancy_acquire, hl]] at hok1 ⊢
        dsimp only at hok1 ⊢
        cases hct : require_can_transfer { s with reentrancyLock := true } frm tid with
        | error e => rw [hct] at hok1; simp at hok1
        | ok u =>
          rw [hct] at hok1
          dsimp only at hok1 ⊢
          cases hdt : (do_transfer { s with reentrancyLock := true } frm tgt tid).1 with
          | error e => rw [hdt] at hok1; simp at hok1
          | ok u2 =>
            rw [hdt] at hok1
            dsimp only at hok1 ⊢
            rw [if_pos hca]
    unfold safe_transfer_from
    rw [frame_of_error s _ .TransferRejected herr]

/-- Claim C10 counterexample to the original wording: the receiver's
`nft_recv` returns an error value, yet no compensating transfer and no
TransferRejected happen — the call succeeds and user 3 keeps the item. -/
theorem C10_receiver_error_no_compensation :
    (safe_transfer_from stOwned 50 .recvErr 1 3 0 none).1 = .ok () ∧
    (safe_transfer_from stOwned 50 .recvErr 1 3 0 none).2.owners 0 = some 3 ∧
    (safe_transfer_from stOwned 50 .recvErr 1 3 0 none).2.balances 3 = 1 := by decide

/-- Claim C10 witness: on `stOwned`, an execution failure of the receiver
invocation leaves the call successful with the item at user 2, while a
conversion failure of a successful invocation returns TransferRejected with
the pre-call storage. -/
theorem C10_invoke_outcome_semantics_witness :
    (safe_transfer_from stOwned 50 .execFailure 1 2 0 none).2.owners 0 = some 2 ∧
    safe_transfer_from stOwned 50 .okErr 1 2 0 none = (.error .TransferRejected, stOwned) :=
  ⟨(C10_invoke_outcome_semantics stOwned 50 1 2 0 none).2.2.1 (by decide),
   (C10_invoke_outcome_semantics stOwned 50 1 2 0 none).2.2.2 (by decide) (by decide)⟩

theorem frame_cases_ok {α : Type} (s : State) (r : Except ContractError α × State) :
    (frame s r).2 = s ∨ ((∃ v, r.1 = .ok v) ∧ (frame s r).2 = r.2) := by
  unfold frame
  cases hr : r.1 with
  | error e => left; rfl
  | ok v => right; exact ⟨⟨v, rfl⟩, rfl⟩

theorem ownedCount_push (s s2 : State) (tgt : Addr)
    (how : s2.owners = upd s.owners s.nextTokenId (some tgt))
    (hn : s2.nextTokenId = s.nextTokenId + 1) (a : Addr) :
    ownedCount s2 a = ownedCount s a + (if tgt = a then 1 else 0) := by
  unfold ownedCount
  rw [how, hn, Finset.range_succ, Finset.filter_insert]
  have hcong : (Finset.range s.nextTokenId).filter
        (fun t => upd s.owners s.nextTokenId (some tgt) t = some a)
      = (Finset.range s.nextTokenId).filter (fun t => s.owners t = some a) := by
    apply Finset.filter_congr
    intro t ht
    have hne : t ≠ s.nextTokenId := Nat.ne_of_lt (Finset.mem_range.mp ht)
    simp [upd, hne]
  rw [hcong]
  by_cases htg : tgt = a
  · rw [if_pos (show upd s.owners s.nextTokenId (some tgt) s.nextTokenId = some a by
      simp [upd, htg])]
    rw [if_pos htg, Finset.card_insert_of_not_mem (by simp)]
  · rw [if_neg (show ¬ upd s.owners s.nextTokenId (some tgt) s.nextTokenId = some a by
      simp [upd, htg])]
    rw [if_neg htg]
    omega

theorem existCount_push (s s2 : State) (tgt : Addr)
    (how : s2.owners = upd s.owners s.nextTokenId (some tgt))
    (hn : s2.nextTokenId = s.nextTokenId + 1) :
    existCount s2 = existCount s + 1 := by
  unfold existCount
  rw [how, hn, Finset.range_succ, Finset.filter_insert]
  have hcong : (Finset.range s.nextTokenId).filter
        (fun t => (upd s.owners s.nextTokenId (some tgt) t).isSome)
      = (Finset.range s.nextTokenId).filter (fun t => (s.owners t).isSome) := by
    apply Finset.filter_congr
    intro t ht
    have hne : t ≠ s.nextTokenId := Nat.ne_of_lt (Finset.mem_range.mp ht)
    simp [upd, hne]
  rw [hcong]
  rw [if_pos (show (upd s.owners s.nextTokenId (some tgt) s.nextTokenId).isSome by
    simp [upd])]
  rw [Finset.card_insert_of_not_mem (by simp)]

theorem filter_owner_upd (f : Nat → Option Addr) (n tid : Nat) (htid : tid < n)
    (v : Option Addr) (a : Addr) :
    (Finset.range n).filter (fun t => upd f tid v t = some a)
      = if v = some a
        then insert tid (((Finset.range n).filter (fun t => f t = some a)).erase tid)
        else ((Finset.range n).filter (fun t => f t = some a)).erase tid := by
  by_cases hv : v = some a
  · rw [if_pos hv]
    ext t
    by_cases ht : t = tid
    · subst ht
      simp [upd, hv, htid]
    · simp [upd, ht]
  · rw [if_neg hv]
    ext t
    by_cases ht : t = tid
    · subst ht
      simp [upd, hv, htid]
    · simp [upd, ht]

theorem filter_isSome_upd (f : Nat → Option Addr) (n tid : Nat) (htid : tid < n)
    (v : Option Addr) :
    (Finset.range n).filter (fun t => (upd f tid v t).isSome)
      = if v.isSome
        then insert tid (((Finset.range n).filter (fun t => (f t).isSome)).erase tid)
        else ((Finset.range n).filter (fun t => (f t).isSome)).erase tid := by
  by_cases hv : v.isSome
  · rw [if_pos hv]
    ext t
    by_cases ht : t = tid
    · subst ht
      simp [upd, hv, htid]
    · simp [upd, ht]
  · rw [if_neg hv]
    ext t
    by_cases ht : t = tid
    · subst ht
      simp [upd, hv, htid]
    · simp [upd, ht]

theorem ownedCount_upd (s s2 : State) (tid : Nat) (v : Option Addr)
    (how : s2.owners = upd s.owners tid v) (hn : s2.nextTokenId = s.nextTokenId)
    (htid : tid < s.nextTokenId) (a : Addr) :
    ownedCount s2 a
      = ownedCount s a + (if v = some a then 1 else 0)
        - (if s.owners tid = some a then 1 else 0) := by
  unfold ownedCount
  rw [how, hn, filter_owner_upd s.owners s.nextTokenId tid htid v a]
  by_cases hv : v = some a
  · rw [if_pos hv, if_pos hv]
    by_cases hf : s.owners tid = some a
    · rw [if_pos hf]
      have hmem : tid ∈ (Finset.range s.nextTokenId).filter (fun t => s.owners t = some a) :=
        Finset.mem_filter.mpr ⟨Finset.mem_range.mpr htid, hf⟩
      rw [Finset.insert_erase hmem]
      have hc1 : 1 ≤ ((Finset.range s.nextTokenId).filter
          (fun t => s.owners t = some a)).card :=
        Finset.card_pos.mpr ⟨tid, hmem⟩
      omega
    · have hnm : tid ∉ (Finset.range s.nextTokenId).filter (fun t => s.owners t = some a) := by
        intro hmem
        exact hf (Finset.mem_filter.mp hmem).2
      rw [if_neg hf, Finset.erase_eq_of_not_mem hnm, Finset.card_insert_of_not_mem hnm]
      omega
  · rw [if_neg hv, if_neg hv]
    by_cases hf : s.owners tid = some a
    · rw [if_pos hf]
      exact Finset.card_erase_of_mem (Finset.mem_filter.mpr ⟨Finset.mem_range.mpr htid, hf⟩)
    · have hnm : tid ∉ (Finset.range s.nextTokenId).filter (fun t => s.owners t = some a) := by
        intro hmem
        exact hf (Finset.mem_filter.mp hmem).2
      rw [if_neg hf, Finset.erase_eq_of_not_mem hnm]
      omega

theorem existCount_upd (s s2 : State) (tid : Nat) (v : Option Addr)
    (how : s2.owners = upd s.owners tid v) (hn : s2.nextTokenId = s.nextTokenId)
    (htid : tid < s.nextTokenId) :
    existCount s2
      = existCount s + (if v.isSome then 1 else 0)
        - (if (s.owners tid).isSome then 1 else 0) := by
  unfold existCount
  rw [how, hn, filter_isSome_upd s.owners s.nextTokenId tid htid v]
  by_cases hv : v.isSome
  · rw [if_pos hv, if_pos hv]
    by_cases hf : (s.owners tid).isSome
    · rw [if_pos hf]
      have hmem : tid ∈ (Finset.range s.nextTokenId).filter (fun t => (s.owners t).isSome) :=
        Finset.mem_filter.mpr ⟨Finset.mem_range.mpr htid, hf⟩
      rw [Finset.insert_erase hmem]
      have hc1 : 1 ≤ ((Finset.range s.nextTokenId).filter
          (fun t => (s.owners t).isSome)).card :=
        Finset.card_pos.mpr ⟨tid, hmem⟩
      omega
    · have hnm : tid ∉ (Finset.range s.nextTokenId).filter
          (fun t => (s.owners t).isSome) := by
        intro hmem
        exact hf (Finset.mem_filter.mp hmem).2
      rw [if_neg hf, Finset.erase_eq_of_not_mem hnm, Finset.card_insert_of_not_mem hnm]
      omega
  · rw [if_neg hv, if_neg hv]
    by_cases hf : (s.owners tid).isSome
    · rw [if_pos hf]
      exact Finset.card_erase_of_mem (Finset.mem_filter.mpr ⟨Finset.mem_range.mpr htid, hf⟩)
    · have hnm : tid ∉ (Finset.range s.nextTokenId).filter
          (fun t => (s.owners t).isSome) := by
        intro hmem
        exact hf (Finset.mem_filter.mp hmem).2
      rw [if_neg hf, Finset.erase_eq_of_not_mem hnm]
      omega

theorem WF_mint_shape (s s2 : State) (h : WF s) (tgt : Addr) (hini : s.initialized = true)
    (how : s2.owners = upd s.owners s.nextTokenId (some tgt))
    (hb : s2.balances = upd s.balances tgt (s.balances tgt + 1))
    (hts : s2.totalSupply = s.totalSupply + 1)
    (hn : s2.nextTokenId = s.nextTokenId + 1)
    (hini2 : s2.initialized = s.initialized) : WF s2 := by
  constructor
  · intro a
    rw [hb, ownedCount_push s s2 tgt how hn a]
    by_cases ha : tgt = a
    · rw [if_pos ha]
      subst ha
      simp [upd, h.bal]
    · rw [if_neg ha]
      have ha2 : a ≠ tgt := fun hh => ha hh.symm
      simp [upd, ha2, h.bal]
  · rw [hts, h.supply, existCount_push s s2 tgt how hn]
  · intro t ht
    rw [how]
    rw [hn] at ht
    have h1 : t ≠ s.nextTokenId := by omega
    have h2 : s.nextTokenId ≤ t := by omega
    simp [upd, h1, h.fresh t h2]
  · intro hi; rw [hini2, hini] at hi; exact absurd hi (by simp)
  · intro hi; rw [hini2, hini] at hi; exact absurd hi (by simp)
  · intro hi; rw [hini2, hini] at hi; exact absurd hi (by simp)
  · intro hi; rw [hini2, hini] at hi; exact absurd hi (by simp)

theorem WF_burn_shape (s s2 : State) (h : WF s) (owner : Addr) (tid : Nat)
    (hown : s.owners tid = some owner)
    (how : s2.owners = upd s.owners tid none)
    (hb : s2.balances = upd s.balances owner (s.balances owner - 1))
    (hts : s2.totalSupply = s.totalSupply - 1)
    (hn : s2.nextTokenId = s.nextTokenId)
    (hini2 : s2.initialized = s.initialized)
    (hmi : s2.minters = s.minters) (had : s2.admins = s.admins)
    (hor : s2.ownerRole = s.ownerRole) : WF s2 := by
  have htid : tid < s.nextTokenId := by
    by_contra hc
    exact absurd (h.fresh tid (by omega)) (by simp [hown])
  constructor
  · intro a
    rw [hb, ownedCount_upd s s2 tid none how hn htid a]
    by_cases ha : a = owner
    · subst ha
      rw [if_neg (by simp), if_pos hown]
      simp [upd, h.bal]
    · rw [if_neg (by simp), if_neg (show ¬ s.owners tid = some a by
        rw [hown]; exact fun hh => ha (Option.some.inj hh).symm)]
      simp [upd, ha, h.bal]
  · rw [hts, h.supply, existCount_upd s s2 tid none how hn htid]
    rw [if_neg (by simp), if_pos (by simp [hown])]
    omega
  · intro t ht
    rw [how]
    rw [hn] at ht
    have h1 : t ≠ tid := by omega
    simp [upd, h1, h.fresh t ht]
  · intro hi; rw [hini2] at hi; rw [hn]
    have := h.uninitTokens hi
    omega
  · intro hi; rw [hini2] at hi; rw [hmi]; exact h.uninitMinters hi
  · intro hi; rw [hini2] at hi; rw [had]; exact h.uninitAdmins hi
  · intro hi; rw [hini2] at hi; rw [hor]; exact h.uninitOwner hi

theorem WF_transfer_shape (s s2 : State) (h : WF s) (frm tgt : Addr) (tid : Nat)
    (hown : s.owners tid = some frm) (hft : frm ≠ tgt)
    (how : s2.owners = upd s.owners tid (some tgt))
    (hb : s2.balances = upd (upd s.balances frm (s.balances frm - 1)) tgt
      (upd s.balances frm (s.balances frm - 1) tgt + 1))
    (hts : s2.totalSupply = s.totalSupply)
    (hn : s2.nextTokenId = s.nextTokenId)
    (hini2 : s2.initialized = s.initialized)
    (hmi : s2.minters = s.minters) (had : s2.admins = s.admins)
    (hor : s2.ownerRole = s.ownerRole) : WF s2 := by
  have htid : tid < s.nextTokenId := by
    by_contra hc
    exact absurd (h.fresh tid (by omega)) (by simp [hown])
  have hbown : 1 ≤ ownedCount s frm := by
    unfold ownedCount
    exact Finset.card_pos.mpr
      ⟨tid, Finset.mem_filter.mpr ⟨Finset.mem_range.mpr htid, hown⟩⟩
  constructor
  · intro a
    rw [hb, ownedCount_upd s s2 tid (some tgt) how hn htid a]
    by_cases hat : a = tgt
    · subst hat
      rw [if_pos rfl, if_neg (show ¬ s.owners tid = some a by
        rw [hown]; exact fun hh => hft (Option.some.inj hh))]
      have h1 : a ≠ frm := fun hh => hft (hh ▸ rfl)
      simp [upd, h1, h.bal]
    · by_cases haf : a = frm
      · subst haf
        rw [if_neg (show ¬ some tgt = some a from
          fun hh => hat (Option.some.inj hh).symm), if_pos hown]
        have h1 : a ≠ tgt := hat
        have hg : upd (upd s.balances a (s.balances a - 1)) tgt
            (upd s.balances a (s.balances a - 1) tgt + 1) a = s.balances a - 1 := by
          simp [upd, h1]
        have hb2 := h.bal a
        omega
      · rw [if_neg (show ¬ some tgt = some a from
          fun hh => hat (Option.some.inj hh).symm),
          if_neg (show ¬ s.owners tid = some a by
            rw [hown]; exact fun hh => haf (Option.some.inj hh).symm)]
        simp [upd, hat, haf, h.bal]
  · rw [hts, h.supply, existCount_upd s s2 tid (some tgt) how hn htid]
    rw [if_pos (by simp), if_pos (by simp [hown])]
    have hc1 : 1 ≤ existCount s := by
      unfold existCount
      refine Finset.card_pos.mpr
        ⟨tid, Finset.mem_filter.mpr ⟨Finset.mem_range.mpr htid, ?_⟩⟩
      simp [hown]
    omega
  · intro t ht
    rw [how]
    rw [hn] at ht
    have h1 : t ≠ tid := by omega
    simp [upd, h1, h.fresh t ht]
  · intro hi; rw [hini2] at hi; rw [hn]
    have := h.uninitTokens hi
    omega
  · intro hi; rw [hini2] at hi; rw [hmi]; exact h.uninitMinters hi
  · intro hi; rw [hini2] at hi; rw [had]; exact h.uninitAdmins hi
  · intro hi; rw [hini2] at hi; rw [hor]; exact h.uninitOwner hi

theorem WF_lockset (s : State) (h : WF s) : WF { s with reentrancyLock := true } :=
  ⟨h.bal, h.supply, h.fresh, h.uninitTokens, h.uninitMinters, h.uninitAdmins, h.uninitOwner⟩

theorem WF_release (s : State) (h : WF s) : WF (reentrancy_release s) :=
  ⟨h.bal, h.supply, h.fresh, h.uninitTokens, h.uninitMinters, h.uninitAdmins, h.uninitOwner⟩

theorem do_transfer_WF (s : State) (frm tgt : Addr) (tid : Nat) (h : WF s) :
    WF (do_transfer s frm tgt tid).2 := by
  unfold do_transfer
  cases hnp : require_not_paused s with
  | error e => exact h
  | ok u =>
    dsimp only
    cases hw : s.owners tid with
    | none => exact h
    | some o =>
      dsimp only
      by_cases ho : o ≠ frm
      · rw [if_pos ho]; exact h
      · rw [if_neg ho]
        push_neg at ho
        by_cases hft : frm = tgt
        · rw [if_pos hft]; exact h
        · rw [if_neg hft]
          subst ho
          exact WF_transfer_shape s _ h o tgt tid hw hft rfl rfl rfl rfl rfl rfl rfl rfl

theorem apply_all_WF (frm tgt : Addr) : ∀ (l : List Nat) (s : State), WF s →
    WF (apply_all frm tgt s l).2 := by
  intro l
  induction l with
  | nil => intro s h; exact h
  | cons t ts ih =>
    intro s h
    unfold apply_all
    dsimp only
    split
    · exact do_transfer_WF s frm tgt t h
    · exact ih _ (do_transfer_WF s frm tgt t h)

theorem burn_internal_WF (s : State) (caller : Addr) (tid : Nat) (h : WF s) :
    WF (burn_internal s caller tid).2 := by
  unfold burn_internal
  cases hw : s.owners tid with
  | none => exact h
  | some owner =>
    dsimp only
    cases hau : (if caller = owner then Except.ok () else require_burner s caller) with
    | error e => exact h
    | ok u =>
      exact WF_burn_shape s _ h owner tid hw rfl rfl rfl rfl rfl rfl rfl rfl

theorem mint_internal_initialized (s : State) (ts : Nat) (caller tgt : Addr) (uri : String)
    (attrs : List TokenAttribute) (roy : Option RoyaltyInfo) :
    (mint_internal s ts caller tgt uri attrs roy).2.initialized = s.initialized := by
  unfold mint_internal mint_body mint_finish
  dsimp only
  repeat' split
  all_goals rfl

theorem mint_internal_ok_WF (s : State) (ts : Nat) (caller tgt : Addr) (uri : String)
    (attrs : List TokenAttribute) (roy : Option RoyaltyInfo) (v : Nat)
    (h : WF s) (hini : s.initialized = true)
    (hok : (mint_internal s ts caller tgt uri attrs roy).1 = .ok v) :
    WF (mint_internal s ts caller tgt uri attrs roy).2 := by
  unfold mint_internal mint_body mint_finish at hok ⊢
  dsimp only at hok ⊢
  cases hms : s.maxSupply with
  | some max =>
    rw [hms] at hok
    dsimp only at hok ⊢
    by_cases hlim : max ≤ s.totalSupply
    · rw [if_pos hlim] at hok
      simp at hok
    · rw [if_neg hlim] at hok ⊢
      cases roy with
      | some r =>
        dsimp only at hok ⊢
        cases hv : validate_royalty_bps r.percentage with
        | error e =>
          rw [hv] at hok
          simp at hok
        | ok u =>
          exact WF_mint_shape s _ h tgt hini rfl rfl rfl rfl rfl
      | none =>
        dsimp only at hok ⊢
        cases hd : s.defaultRoyalty with
        | none =>
          rw [hd] at hok
          simp at hok
        | some dr =>
          exact WF_mint_shape s _ h tgt hini rfl rfl rfl rfl rfl
  | none =>
    rw [hms] at hok
    dsimp only at hok ⊢
    cases roy with
    | some r =>
      dsimp only at hok ⊢
      cases hv : validate_royalty_bps r.percentage with
      | error e =>
        rw [hv] at hok
        simp at hok
      | ok u =>
        exact WF_mint_shape s _ h tgt hini rfl rfl rfl rfl rfl
    | none =>
      dsimp only at hok ⊢
      cases hd : s.defaultRoyalty with
      | none =>
        rw [hd] at hok
        simp at hok
      | some dr =>
        exact WF_mint_shape s _ h tgt hini rfl rfl rfl rfl rfl

theorem batch_mint_loop_ok_WF (ts : Nat) (caller : Addr) :
    ∀ (l : List (Addr × String × List TokenAttribute)) (s : State) (ids : List Nat),
    WF s → s.initialized = true →
    (batch_mint_loop ts caller s l).1 = .ok ids →
    WF (batch_mint_loop ts caller s l).2 := by
  intro l
  induction l with
  | nil => intro s ids h _ _; exact h
  | cons p rest ih =>
    obtain ⟨tgt, uri, attrs⟩ := p
    intro s ids h hini hok
    unfold batch_mint_loop at hok ⊢
    dsimp only at hok ⊢
    cases hmi : (mint_internal s ts caller tgt uri attrs none).1 with
    | error e => rw [hmi] at hok; simp at hok
    | ok id =>
      rw [hmi] at hok
      dsimp only at hok ⊢
      have h2 : WF (mint_internal s ts caller tgt uri attrs none).2 :=
        mint_internal_ok_WF s ts caller tgt uri attrs none id h hini hmi
      have hini2 : (mint_internal s ts caller tgt uri attrs none).2.initialized = true := by
        rw [mint_internal_initialized]; exact hini
      cases hbl : (batch_mint_loop ts caller (mint_internal s ts caller tgt uri attrs none).2
          rest).1 with
      | error e =>
        rw [hbl] at hok
        simp at hok
      | ok ids2 =>
        exact ih _ ids2 h2 hini2 hbl

theorem transfer_run_WF (s : State) (frm tgt : Addr) (tid : Nat) (h : WF s) :
    WF (transfer_run s frm tgt tid).2 := by
  unfold transfer_run
  cases hl : s.reentrancyLock with
  | true =>
    rw [show reentrancy_acquire s = (Except.error .ReentrancyDetected, s) from by
      simp [reentrancy_acquire, hl]]
    exact h
  | false =>
    rw [show reentrancy_acquire s = (Except.ok (), { s with reentrancyLock := true }) from by
      simp [reentrancy_acquire, hl]]
    dsimp only
    cases hct : require_can_transfer { s with reentrancyLock := true } frm tid with
    | error e => exact WF_release _ (WF_lockset s h)
    | ok u =>
      exact WF_release _ (do_transfer_WF { s with reentrancyLock := true } frm tgt tid
        (WF_lockset s h))

theorem safe_transfer_from_run_WF (s : State) (ca : Addr) (oc : InvokeOutcome)
    (frm tgt : Addr) (tid : Nat) (d : Option (List Nat)) (h : WF s) :
    WF (safe_transfer_from_run s ca oc frm tgt tid d).2 := by
  unfold safe_transfer_from_run
  cases hl : s.reentrancyLock with
  | true =>
    rw [show reentrancy_acquire s = (Except.error .ReentrancyDetected, s) from by
      simp [reentrancy_acquire, hl]]
    exact h
  | false =>
    rw [show reentrancy_acquire s = (Except.ok (), { s with reentrancyLock := true }) from by
      simp [reentrancy_acquire, hl]]
    dsimp only
    cases hct : require_can_transfer { s with reentrancyLock := true } frm tid with
    | error e => exact WF_release _ (WF_lockset s h)
    | ok u =>
      have h2 := do_transfer_WF { s with reentrancyLock := true } frm tgt tid (WF_lockset s h)
      cases hdt : (do_transfer { s with reentrancyLock := true } frm tgt tid).1 with
      | error e => exact WF_release _ h2
      | ok u2 =>
        by_cases hca : tgt ≠ ca
        · rw [if_pos hca]
          cases oc with
          | recvErr => exact WF_release _ h2
          | execFailure => exact WF_release _ h2
          | okOk => exact WF_release _ h2
          | okErr => exact WF_release _ (do_transfer_WF _ tgt frm tid h2)
        · rw [if_neg hca]
          exact WF_release _ h2

theorem batch_transfer_run_WF (s : State) (frm tgt : Addr) (tids : List Nat) (h : WF s) :
    WF (batch_transfer_run s frm tgt tids).2 := by
  unfold batch_transfer_run
  cases hl : s.reentrancyLock with
  | true =>
    rw [show reentrancy_acquire s = (Except.error .ReentrancyDetected, s) from by
      simp [reentrancy_acquire, hl]]
    exact h
  | false =>
    rw [show reentrancy_acquire s = (Except.ok (), { s with reentrancyLock := true }) from by
      simp [reentrancy_acquire, hl]]
    dsimp only
    cases hchk : check_all { s with reentrancyLock := true } frm tids with
    | error e => exact WF_release _ (WF_lockset s h)
    | ok u => exact WF_release _ (apply_all_WF frm tgt tids _ (WF_lockset s h))

theorem burn_run_WF (s : State) (caller : Addr) (tid : Nat) (confirm : Bool) (h : WF s) :
    WF (burn_run s caller tid confirm).2 := by
  unfold burn_run
  by_cases hc : ¬ confirm = true
  · rw [if_pos hc]; exact h
  · rw [if_neg hc]
    cases hl : s.reentrancyLock with
    | true =>
      rw [show reentrancy_acquire s = (Except.error .ReentrancyDetected, s) from by
        simp [reentrancy_acquire, hl]]
      exact h
    | false =>
      rw [show reentrancy_acquire s = (Except.ok (), { s with reentrancyLock := true }) from by
        simp [reentrancy_acquire, hl]]
      dsimp only
      exact WF_release _ (burn_internal_WF _ caller tid (WF_lockset s h))

theorem mint_run_ok_WF (s : State) (ts : Nat) (caller tgt : Addr) (uri : String)
    (attrs : List TokenAttribute) (roy : Option RoyaltyInfo) (v : Nat) (h : WF s)
    (hok : (mint_run s ts caller tgt uri attrs roy).1 = .ok v) :
    WF (mint_run s ts caller tgt uri attrs roy).2 := by
  unfold mint_run at hok ⊢
  cases hmc : s.minters caller with
  | false =>
    rw [show require_minter s caller = Except.error .NotAuthorized from by
      simp [require_minter, hmc]] at hok ⊢
    exact h
  | true =>
    rw [show require_minter s caller = Except.ok () from by
      simp [require_minter, hmc]] at hok ⊢
    have hini : s.initialized = true := by
      cases hsi : s.initialized
      · exact absurd (h.uninitMinters hsi caller) (by rw [hmc]; simp)
      · rfl
    cases hp : require_not_paused s with
    | error e => exact h
    | ok u =>
      rw [hp] at hok
      cases hwl : (if s.whitelistOnlyMint then require_whitelisted s caller
          else Except.ok ()) with
      | error e => exact h
      | ok u2 =>
        rw [hwl] at hok
        cases hl : s.reentrancyLock with
        | true =>
          rw [show reentrancy_acquire s = (Except.error .ReentrancyDetected, s) from by
            simp [reentrancy_acquire, hl]] at hok ⊢
          exact h
        | false =>
          rw [show reentrancy_acquire s
              = (Except.ok (), { s with reentrancyLock := true }) from by
            simp [reentrancy_acquire, hl]] at hok ⊢
          dsimp only at hok ⊢
          exact WF_release _ (mint_internal_ok_WF _ ts caller tgt uri attrs roy v
            (WF_lockset s h) hini hok)

theorem batch_mint_run_ok_WF (s : State) (ts : Nat) (caller : Addr) (recips : List Addr)
    (us : List String) (ats : List (List TokenAttribute)) (ids : List Nat) (h : WF s)
    (hok : (batch_mint_run s ts caller recips us ats).1 = .ok ids) :
    WF (batch_mint_run s ts caller recips us ats).2 := by
  unfold batch_mint_run at hok ⊢
  by_cases hlen : recips.length ≠ us.length ∨ recips.length ≠ ats.length
  · rw [if_pos hlen] at hok ⊢
    exact h
  · rw [if_neg hlen] at hok ⊢
    cases hmc : s.minters caller with
    | false =>
      rw [show require_minter s caller = Except.error .NotAuthorized from by
        simp [require_minter, hmc]] at hok ⊢
      exact h
    | true =>
      rw [show require_minter s caller = Except.ok () from by
        simp [require_minter, hmc]] at hok ⊢
      have hini : s.initialized = true := by
        cases hsi : s.initialized
        · exact absurd (h.uninitMinters hsi caller) (by rw [hmc]; simp)
        · rfl
      cases hp : require_not_paused s with
      | error e => exact h
      | ok u =>
        rw [hp] at hok
        cases hwl : (if s.whitelistOnlyMint then require_whitelisted s caller
            else Except.ok ()) with
        | error e => exact h
        | ok u2 =>
          rw [hwl] at hok
          cases hl : s.reentrancyLock with
          | true =>
            rw [show reentrancy_acquire s = (Except.error .ReentrancyDetected, s) from by
              simp [reentrancy_acquire, hl]] at hok ⊢
            exact h
          | false =>
            rw [show reentrancy_acquire s
                = (Except.ok (), { s with reentrancyLock := true }) from by
              simp [reentrancy_acquire, hl]] at hok ⊢
            dsimp only at hok ⊢
            exact WF_release _ (batch_mint_loop_ok_WF ts caller _ _ ids
              (WF_lockset s h) hini hok)

theorem WF_empty : WF emptyState := by
  constructor
  · intro a
    simp [emptyState, ownedCount]
  · simp [emptyState, existCount]
  · intro t _
    rfl
  · intro _
    rfl
  · intro _ a
    rfl
  · intro _ a
    rfl
  · intro _
    rfl

theorem WF_init_state (s s2 : State) (h : WF s) (hini : s.initialized = false)
    (how : s2.owners = s.owners) (hb : s2.balances = s.balances)
    (hn : s2.nextTokenId = 0) (hts : s2.totalSupply = 0)
    (hini2 : s2.initialized = true) : WF s2 := by
  have hn0 : s.nextTokenId = 0 := h.uninitTokens hini
  constructor
  · intro a
    rw [hb, h.bal a]
    unfold ownedCount
    rw [hn, hn0, how]
  · rw [hts]
    unfold existCount
    rw [hn]
    simp
  · intro t _
    rw [how]
    exact h.fresh t (by omega)
  · intro hi; rw [hini2] at hi; exact absurd hi (by simp)
  · intro hi; rw [hini2] at hi; exact absurd hi (by simp)
  · intro hi; rw [hini2] at hi; exact absurd hi (by simp)
  · intro hi; rw [hini2] at hi; exact absurd hi (by simp)

theorem WF_applyOp (op : Op) (s : State) (h : WF s) : WF (applyOp op s) := by
  cases op with
  | opInit owner cfg =>
    show WF (initialize_contract s owner cfg).2
    unfold initialize_contract
    cases hini : s.initialized with
    | true =>
      rw [if_pos rfl]
      exact h
    | false =>
      rw [if_neg (by simp)]
      cases hv : validate_royalty_bps cfg.royalty_default.percentage with
      | error e => exact h
      | ok u =>
        dsimp only
        cases hcm : cfg.max_supply with
        | some max => exact WF_init_state s _ h hini rfl rfl rfl rfl rfl
        | none => exact WF_init_state s _ h hini rfl rfl rfl rfl rfl
  | opMint ts caller tgt uri attrs roy =>
    show WF (mint s ts caller tgt uri attrs roy).2
    unfold mint
    rcases frame_cases_ok s (mint_run s ts caller tgt uri attrs roy) with hf | ⟨⟨v, hv⟩, hf⟩
    · rw [hf]; exact h
    · rw [hf]; exact mint_run_ok_WF s ts caller tgt uri attrs roy v h hv
  | opBatchMint ts caller rcps us ats =>
    show WF (batch_mint s ts caller rcps us ats).2
    unfold batch_mint
    rcases frame_cases_ok s (batch_mint_run s ts caller rcps us ats) with hf | ⟨⟨ids, hv⟩, hf⟩
    · rw [hf]; exact h
    · rw [hf]; exact batch_mint_run_ok_WF s ts caller rcps us ats ids h hv
  | opBurn caller tid confirm =>
    show WF (burn s caller tid confirm).2
    unfold burn
    rcases frame_cases s (burn_run s caller tid confirm) with hf | hf
    · rw [hf]; exact h
    · rw [hf]; exact burn_run_WF s caller tid confirm h
  | opTransfer frm tgt tid =>
    show WF (transfer s frm tgt tid).2
    unfold transfer
    rcases frame_cases s (transfer_run s frm tgt tid) with hf | hf
    · rw [hf]; exact h
    · rw [hf]; exact transfer_run_WF s frm tgt tid h
  | opSafeTransfer ca oc frm tgt tid d =>
    show WF (safe_transfer_from s ca oc frm tgt tid d).2
    unfold safe_transfer_from
    rcases frame_cases s (safe_transfer_from_run s ca oc frm tgt tid d) with hf | hf
    · rw [hf]; exact h
    · rw [hf]; exact safe_transfer_from_run_WF s ca oc frm tgt tid d h
  | opBatchTransfer frm tgt tids =>
    show WF (batch_transfer s frm tgt tids).2
    unfold batch_transfer
    rcases frame_cases s (batch_transfer_run s frm tgt tids) with hf | hf
    · rw [hf]; exact h
    · rw [hf]; exact batch_transfer_run_WF s frm tgt tids h
  | opApprove caller ap tid =>
    show WF (approve s caller ap tid).2
    unfold approve
    repeat' split
    all_goals exact ⟨h.bal, h.supply, h.fresh, h.uninitTokens, h.uninitMinters,
      h.uninitAdmins, h.uninitOwner⟩
  | opSetApprovalForAll caller op2 b =>
    show WF (set_approval_for_all s caller op2 b).2
    exact ⟨h.bal, h.supply, h.fresh, h.uninitTokens, h.uninitMinters,
      h.uninitAdmins, h.uninitOwner⟩
  | opSetTokenUri caller tid uri =>
    show WF (set_token_uri s tid uri caller).2
    unfold set_token_uri
    repeat' split
    all_goals exact ⟨h.bal, h.supply, h.fresh, h.uninitTokens, h.uninitMinters,
      h.uninitAdmins, h.uninitOwner⟩
  | opSetBaseUri caller uri =>
    show WF (set_base_uri s caller uri).2
    unfold set_base_uri
    repeat' split
    all_goals exact ⟨h.bal, h.supply, h.fresh, h.uninitTokens, h.uninitMinters,
      h.uninitAdmins, h.uninitOwner⟩
  | opFreezeMetadata caller =>
    show WF (freeze_metadata s caller).2
    unfold freeze_metadata
    repeat' split
    all_goals exact ⟨h.bal, h.supply, h.fresh, h.uninitTokens, h.uninitMinters,
      h.uninitAdmins, h.uninitOwner⟩
  | opSetEditionInfo caller tid en te =>
    show WF (set_edition_info s tid en te caller).2
    unfold set_edition_info
    repeat' split
    all_goals exact ⟨h.bal, h.supply, h.fresh, h.uninitTokens, h.uninitMinters,
      h.uninitAdmins, h.uninitOwner⟩
  | opSetPause caller b =>
    show WF (set_pause s caller b).2
    unfold set_pause
    repeat' split
    all_goals exact ⟨h.bal, h.supply, h.fresh, h.uninitTokens, h.uninitMinters,
      h.uninitAdmins, h.uninitOwner⟩
  | opSetAdmin a b =>
    show WF (set_admin s a b).2
    cases ho : s.ownerRole with
    | none =>
      rw [show set_admin s a b = (.error .NotAuthorized, s) from by
        unfold set_admin require_owner
        rw [ho]
        rfl]
      exact h
    | some o =>
      rw [show set_admin s a b = (.ok (), { s with admins := upd s.admins a b }) from by
        unfold set_admin require_owner
        rw [ho]
        rfl]
      exact ⟨h.bal, h.supply, h.fresh, h.uninitTokens, h.uninitMinters,
        fun hi => absurd (h.uninitOwner hi) (by rw [ho]; simp), h.uninitOwner⟩
  | opSetMinter caller m b =>
    show WF (set_minter s caller m b).2
    cases ha : s.admins caller with
    | false =>
      rw [show set_minter s caller m b = (.error .NotAuthorized, s) from by
        unfold set_minter require_admin
        rw [ha]
        rfl]
      exact h
    | true =>
      rw [show set_minter s caller m b
          = (.ok (), { s with minters := upd s.minters m b }) from by
        unfold set_minter require_admin
        rw [ha]
        rfl]
      exact ⟨h.bal, h.supply, h.fresh, h.uninitTokens,
        fun hi => absurd (h.uninitAdmins hi caller) (by rw [ha]; simp),
        h.uninitAdmins, h.uninitOwner⟩
  | opSetBurner caller m b =>
    show WF (set_burner s caller m b).2
    unfold set_burner
    repeat' split
    all_goals exact ⟨h.bal, h.supply, h.fresh, h.uninitTokens, h.uninitMinters,
      h.uninitAdmins, h.uninitOwner⟩
  | opSetMetadataUpdater caller m b =>
    show WF (set_metadata_updater s caller m b).2
    unfold set_metadata_updater
    repeat' split
    all_goals exact ⟨h.bal, h.supply, h.fresh, h.uninitTokens, h.uninitMinters,
      h.uninitAdmins, h.uninitOwner⟩
  | opSetWhitelist caller m b =>
    show WF (set_whitelist s caller m b).2
    unfold set_whitelist
    repeat' split
    all_goals exact ⟨h.bal, h.supply, h.fresh, h.uninitTokens, h.uninitMinters,
      h.uninitAdmins, h.uninitOwner⟩
  | opSetWhitelistOnlyMint caller b =>
    show WF (set_whitelist_only_mint s caller b).2
    unfold set_whitelist_only_mint
    repeat' split
    all_goals exact ⟨h.bal, h.supply, h.fresh, h.uninitTokens, h.uninitMinters,
      h.uninitAdmins, h.uninitOwner⟩
  | opSetDefaultRoyalty caller r bps =>
    show WF (set_default_royalty s caller r bps).2
    unfold set_default_royalty
    repeat' split
    all_goals exact ⟨h.bal, h.supply, h.fresh, h.uninitTokens, h.uninitMinters,
      h.uninitAdmins, h.uninitOwner⟩
  | opSetRoyaltyInfo caller tid r bps =>
    show WF (set_royalty_info s caller tid r bps).2
    unfold set_royalty_info
    repeat' split
    all_goals exact ⟨h.bal, h.supply, h.fresh, h.uninitTokens, h.uninitMinters,
      h.uninitAdmins, h.uninitOwner⟩

theorem WF_of_reachable (s : State) (hr : Reachable s) : WF s := by
  induction hr with
  | base => exact WF_empty
  | step s2 op hr2 ih => exact WF_applyOp op s2 ih

theorem WF_sum (s : State) (h : WF s) : sumEqSupply s := by
  intro hs hhs
  have h1 : sumBal s hs = ∑ a ∈ hs, ownedCount s a :=
    Finset.sum_congr rfl (fun a _ => h.bal a)
  rw [h1, h.supply]
  unfold existCount
  have hmem : ∀ x ∈ (Finset.range s.nextTokenId).filter (fun t => (s.owners t).isSome),
      (s.owners x).getD 0 ∈ hs := by
    intro x hx
    rw [Finset.mem_filter] at hx
    obtain ⟨hxr, hxs⟩ := hx
    obtain ⟨w, hw⟩ := Option.isSome_iff_exists.mp hxs
    rw [hw]
    simp only [Option.getD_some]
    apply hhs
    rw [h.bal]
    unfold ownedCount
    intro hzero
    have hxw : x ∈ (Finset.range s.nextTokenId).filter (fun t => s.owners t = some w) :=
      Finset.mem_filter.mpr ⟨hxr, hw⟩
    rw [Finset.card_eq_zero] at hzero
    rw [hzero] at hxw
    exact absurd hxw (Finset.not_mem_empty x)
  rw [Finset.card_eq_sum_card_fiberwise hmem]
  refine Finset.sum_congr rfl ?_
  intro b _
  unfold ownedCount
  congr 1
  ext t
  cases ho : s.owners t <;> simp [ho]

/-- Claim C1: for every reachable state and every public mutating operation,
if the sum over all holders of their balance equals total_supply before the
operation, it still does after the operation completes, whether it succeeds
or fails (the host discards a failed invocation's storage frame).  Proved
by showing every reachable state is ledger-well-formed (`WF`) and that
well-formedness forces the sum to equal the supply. -/
theorem C1_balance_sum_invariant (s : State) (hr : Reachable s) (op : Op)
    (hpre : sumEqSupply s) : sumEqSupply (applyOp op s) :=
  WF_sum (applyOp op s) (WF_of_reachable (applyOp op s) (Reachable.step s op hr))

/-- Claim C1 witness: the empty storage is reachable and satisfies the
invariant, and one `initialize` step preserves it. -/
theorem C1_balance_sum_invariant_witness :
    Reachable emptyState ∧ sumEqSupply emptyState ∧
    sumEqSupply (applyOp (.opInit 0 cfgMax1) emptyState) :=
  ⟨Reachable.base, fun hs _ => by simp [sumBal, emptyState],
   C1_balance_sum_invariant emptyState Reachable.base (.opInit 0 cfgMax1)
     (fun hs _ => by simp [sumBal, emptyState])⟩

end Nftopia
